import Mathlib

/-!
Verification development for the broadcast delivery engine of the
`GrammSoli/web-app` repository.  The definitions below are shallow
embeddings of the Python source in `admin_panel/core/tasks.py`,
`admin_panel/core/admin.py` and `admin_panel/admin_panel/urls.py`:
segment-rule filtering, the Telegram rate limiter, the MarkdownV2
message formatter, the synchronous send helper and the
`execute_broadcast` delivery loop.  Machine time is modelled by the
rationals (for the limiter) and by abstract integer instants (for the
recipient store); Redis/database effects are modelled by explicit
state and by environment functions giving the values the task would
observe.
-/

/- ======================================================================
   SEGMENT FILTERING  (apply_segment_filter, parse_relative_time)
   ====================================================================== -/

/-- Scalar entry of a JSON list value; the repository's `in` rules
only ever carry flat lists of scalars. -/
inductive FilterAtom where
  | anull : FilterAtom
  | astr (s : String) : FilterAtom
  | aint (n : ℤ) : FilterAtom
  | abool (b : Bool) : FilterAtom
deriving DecidableEq, Repr

/-- Values appearing in a segment's JSON `filter_rules`. -/
inductive FilterValue where
  | vnull : FilterValue
  | vstr (s : String) : FilterValue
  | vint (n : ℤ) : FilterValue
  | vbool (b : Bool) : FilterValue
  | vlist (l : List FilterAtom) : FilterValue
deriving DecidableEq, Repr

/-- Python truthiness of a rule value, used by the `is_null` branch
(`if value:`). -/
def FilterValue.truthy : FilterValue → Bool
  | .vnull => false
  | .vstr s => !(s == "")
  | .vint n => !(n == 0)
  | .vbool b => b
  | .vlist l => !l.isEmpty

/-- One recipient row of the user store.  `subscription_tier = none`
models SQL NULL, `some ""` the empty string kept by legacy rows.
`date_created` is an abstract integer timestamp in seconds. -/
structure User where
  id : ℕ
  telegram_id : ℤ
  status : String
  subscription_tier : Option String
  date_created : ℤ
deriving DecidableEq, Repr

/-- Value of a modelled column, as Django would read it. -/
inductive FieldVal where
  | fnull : FieldVal
  | fstr (s : String) : FieldVal
  | fint (n : ℤ) : FieldVal
  | ftime (t : ℤ) : FieldVal
deriving DecidableEq, Repr

/-- Column lookup for the columns the repository's rules use.  Columns
outside the modelled schema read as NULL. -/
def User.getField (u : User) (f : String) : FieldVal :=
  if f = "id" then .fint u.id
  else if f = "telegram_id" then .fint u.telegram_id
  else if f = "status" then .fstr u.status
  else if f = "subscription_tier" then
    match u.subscription_tier with
    | none => .fnull
    | some s => .fstr s
  else if f = "date_created" then .ftime u.date_created
  else .fnull

/-- One second resolution: `timedelta(days=1)` in seconds. -/
def oneDay : ℤ := 86400

/-- Python `int(s)`: optional surrounding whitespace, optional sign,
then decimal digits. -/
def pyParseInt (s : String) : Option ℤ :=
  let t := s.trim
  let core := if t.startsWith "-" || t.startsWith "+" then t.drop 1 else t
  if core.length > 0 && core.data.all (fun c => c.isDigit) then
    let n : ℤ := core.data.foldl (fun acc c => acc * 10 + (c.toNat - 48)) 0
    some (if t.startsWith "-" then -n else n)
  else none

/-- Python `s.rstrip('s')`: drop every trailing `s`. -/
def rstripS (s : String) : String :=
  String.mk (((s.data.reverse).dropWhile (fun c => c = 's')).reverse)

/-- Embedding of the inner `parse_relative_time` helper of
`apply_segment_filter`.  `now` is the instant `timezone.now()` returns
at resolution time.  `.ok none` models the Python `return None`
branches; the `ValueError` that `int(parts[0])` raises on a
non-numeric count is modelled as `.error`. -/
def parse_relative_time (now : ℤ) (value : String) : Except String (Option ℤ) :=
  let v := value.trim
  if ¬ v.startsWith "-" then .ok none
  else
    match (v.drop 1).splitOn " " with
    | [p0, p1] =>
      match pyParseInt p0 with
      | none => .error "ValueError"
      | some num =>
        let unit := rstripS p1
        if unit = "day" then .ok (some (now - num * oneDay))
        else if unit = "week" then .ok (some (now - num * 7 * oneDay))
        else if unit = "month" then .ok (some (now - num * 30 * oneDay))
        else .ok none
    | _ => .ok none

/-- Equality test a Django exact/`__in` lookup performs between a
column value and a rule value on the modelled columns. -/
def FieldVal.eqVal : FieldVal → FilterValue → Bool
  | .fstr s, .vstr t => s = t
  | .fint n, .vint m => n = m
  | .ftime t, .vint m => t = m
  | _, _ => false

/-- Equality test between a column value and one scalar list entry. -/
def FieldVal.eqAtom : FieldVal → FilterAtom → Bool
  | .fstr s, .astr t => s = t
  | .fint n, .aint m => n = m
  | .ftime t, .aint m => t = m
  | _, _ => false

/-- Ordered comparison of a column with a raw (non-relative) rule
value.  Comparing a datetime column with a raw string or integer is
modelled as the `ValidationError` Django raises when it cannot coerce
the value (the repository only ever sends relative expressions such as
`"-7 days"` down this path). -/
def rawCompare (isLt : Bool) (strict : Bool) : FieldVal → FilterValue → Except String Bool
  | .fint n, .vint m =>
    .ok (if isLt then (if strict then n < m else n ≤ m) else (if strict then m < n else m ≤ n))
  | .fstr s, .vstr t =>
    .ok (if isLt then (if strict then s < t else s ≤ t) else (if strict then t < s else t ≤ s))
  | .fnull, _ => .ok false
  | _, _ => .error "ValidationError"

/-- Comparison of a column with a resolved relative instant
(`field__gte/lte/lt = dt`).  A NULL column matches nothing; the
repository only applies relative expressions to datetime columns. -/
def timeCompare (isLt : Bool) (strict : Bool) : FieldVal → ℤ → Bool
  | .ftime t, dt => if isLt then (if strict then t < dt else t ≤ dt) else (if strict then dt < t else dt ≤ t)
  | _, _ => false

/-- Run a predicate that may fail over a queryset, keeping the rows on
which it returns `true` (one failing row aborts the query, as a
Django `ValidationError` aborts queryset evaluation). -/
def filterExcept (p : User → Except String Bool) : List User → Except String (List User)
  | [] => .ok []
  | u :: rest =>
    match p u with
    | .error e => .error e
    | .ok b =>
      match filterExcept p rest with
      | .error e => .error e
      | .ok us => .ok (if b then u :: us else us)

/-- Condition attached to one field of `filter_rules`: either the old
direct format `{"status": "active"}` or an operator dictionary. -/
inductive RuleCond where
  | direct (v : FilterValue) : RuleCond
  | ops (cs : List (String × FilterValue)) : RuleCond
deriving DecidableEq, Repr

/-- The `in` operator of `apply_segment_filter` (lines 72-84): a list
containing a null marker selects NULL rows plus membership in the
remaining values, plus the empty string when the field is
`subscription_tier`. -/
def applyInOp (field : String) (v : FilterValue) (qs : List User) : Except String (List User) :=
  match v with
  | .vlist l =>
    if l.contains .anull || l.contains (.astr "null") then
      let nonNull := l.filter (fun x => !(x == .anull) && !(x == .astr "null"))
      .ok (qs.filter (fun u =>
        (u.getField field == .fnull)
        || nonNull.any (fun x => (u.getField field).eqAtom x)
        || (field == "subscription_tier" && (u.getField field == .fstr ""))))
    else
      .ok (qs.filter (fun u => l.any (fun x => (u.getField field).eqAtom x)))
  | _ => .error "TypeError"

/-- One comparison operator of `apply_segment_filter` with the code's
relative-time handling: `gte`, `lte` and `lt` resolve a string value
starting with `-` through `parse_relative_time` (no filter is applied
when resolution returns `None`); `gt` has no such branch and passes
the raw value to the store. -/
def applyCmpOp (now : ℤ) (field : String) (isLt : Bool) (strict : Bool) (relative : Bool)
    (v : FilterValue) (qs : List User) : Except String (List User) :=
  match v with
  | .vstr s =>
    if relative && s.startsWith "-" then
      match parse_relative_time now s with
      | .error e => .error e
      | .ok none => .ok qs
      | .ok (some dt) => .ok (qs.filter (fun u => timeCompare isLt strict (u.getField field) dt))
    else
      filterExcept (fun u => rawCompare isLt strict (u.getField field) (.vstr s)) qs
  | _ => filterExcept (fun u => rawCompare isLt strict (u.getField field) v) qs

/-- Dispatch on one `(operator, value)` pair of a condition dictionary
(lines 71-114).  An operator outside the recognised set falls through
the `if/elif` chain and leaves the queryset untouched. -/
def applyOnePair (now : ℤ) (field : String) (op : String) (v : FilterValue)
    (qs : List User) : Except String (List User) :=
  if op = "in" then applyInOp field v qs
  else if op = "eq" then
    .ok (qs.filter (fun u =>
      match v with
      | .vnull => u.getField field == .fnull
      | _ => (u.getField field).eqVal v))
  else if op = "gte" then applyCmpOp now field false false true v qs
  else if op = "lte" then applyCmpOp now field true false true v qs
  else if op = "gt" then applyCmpOp now field false true false v qs
  else if op = "lt" then applyCmpOp now field true true true v qs
  else if op = "is_null" then
    if v.truthy then .ok (qs.filter (fun u => u.getField field == .fnull))
    else .ok (qs.filter (fun u => !(u.getField field == .fnull)))
  else .ok qs

/-- Embedding of `apply_segment_filter`: fold the rule dictionary over
the queryset.  The recipient store is a plain list; Django querysets
are modelled by list filtering in store order. -/
def applySegmentFilter (now : ℤ) (rules : List (String × RuleCond))
    (qs : List User) : Except String (List User) :=
  rules.foldlM (fun acc fr =>
    match fr.2 with
    | .direct v =>
      .ok (acc.filter (fun u =>
        match v with
        | .vnull => u.getField fr.1 == .fnull
        | _ => (u.getField fr.1).eqVal v))
    | .ops cs => cs.foldlM (fun acc2 pr => applyOnePair now fr.1 pr.1 pr.2 acc2) acc) qs

/- ======================================================================
   MARKDOWN V2 FORMATTER  (escape_markdown_v2, convert_html_to_markdown_v2,
   prepare_message_text)
   ====================================================================== -/

/-- The escape set of `escape_markdown_v2`:
underscore, star, brackets, parens, tilde, backtick, greater-than,
hash, plus, minus, equals, pipe, braces, dot, bang. -/
def escapeChars : List Char :=
  ['_', '*', '[', ']', '(', ')', '~', Char.ofNat 96, '>', '#', '+', '-', '=', '|',
   Char.ofNat 123, Char.ofNat 125, '.', '!']

/-- Character-list body of `escape_markdown_v2`: a backslash is
prepended to every reserved character. -/
def escapeMdChars : List Char → List Char
  | [] => []
  | c :: rest =>
    if c ∈ escapeChars then '\\' :: c :: escapeMdChars rest
    else c :: escapeMdChars rest

/-- Embedding of `escape_markdown_v2`. -/
def escape_markdown_v2 (s : String) : String :=
  String.mk (escapeMdChars s.data)

/-- Undo of the MarkdownV2 escaping, stated from the specification's
wording: a backslash immediately preceding a reserved character is
dropped, everything else is kept. -/
def removeMdEscapes : List Char → List Char
  | [] => []
  | '\\' :: c :: rest =>
    if c ∈ escapeChars then c :: removeMdEscapes rest
    else '\\' :: removeMdEscapes (c :: rest)
  | c :: rest => c :: removeMdEscapes rest

/-- Word characters for the regex `\b` boundary. -/
def isWordChar (c : Char) : Bool := c.isAlphanum || c == '_'

/-- Case-insensitive "starts with" on character lists, matching the
`re.IGNORECASE` flag used throughout the formatter. -/
def startsWithCI : List Char → List Char → Bool
  | [], _ => true
  | _ :: _, [] => false
  | p :: ps, c :: cs => (p.toLower == c.toLower) && startsWithCI ps cs

/-- Tag names of the `has_html` pattern
`<(b|i|u|s|code|a|strong|em|strike)\b[^>]*>` in `prepare_message_text`. -/
def htmlTagNames : List (List Char) :=
  ["b".data, "i".data, "u".data, "s".data, "code".data, "a".data,
   "strong".data, "em".data, "strike".data]

/-- After a literal `<`, does one alternation branch of the `has_html`
pattern match: a tag name, a `\b` boundary, and a later `>` closing
`[^>]*>`? -/
def tagCandidate (rest : List Char) : Bool :=
  htmlTagNames.any (fun nm =>
    startsWithCI nm rest &&
      (match rest.drop nm.length with
       | [] => false
       | c :: cs => !isWordChar c && (c :: cs).contains '>'))

/-- Scan of `re.search` for the `has_html` pattern over the body. -/
def hasHtmlTagAux : List Char → Bool
  | [] => false
  | c :: rest => (c == '<' && tagCandidate rest) || hasHtmlTagAux rest

/-- Embedding of `re.sub(r'<[^>]+>', '', text)`: drop every maximal
`<...>` span with a nonempty body; the fuel argument bounds the scan
and callers pass the text length, which suffices because every step
consumes at least one character. -/
def stripTagsGo : ℕ → List Char → List Char
  | _, [] => []
  | 0, l => l
  | fuel + 1, c :: rest =>
    if c == '<' then
      let inner := rest.takeWhile (fun d => !(d == '>'))
      match rest.drop inner.length with
      | '>' :: rest2 =>
        if inner.isEmpty then c :: stripTagsGo fuel rest
        else stripTagsGo fuel rest2
      | _ => c :: stripTagsGo fuel rest
    else c :: stripTagsGo fuel rest

/-- Embedding of the plain-text fallback `re.sub(r'<[^>]+>', '', text)`
used by `send_telegram_message_sync` and by the formatter's final
tag-removal pass. -/
def stripHtmlTags (s : String) : String :=
  String.mk (stripTagsGo s.data.length s.data)

/-- Replacement scan of `re.sub(pattern, repl, text, re.IGNORECASE)`
for a flat-tag pattern `<tag>([^<]*)</tag>`: at each position, match
the literal open tag, a `<`-free content span and the literal close
tag, replacing the whole match by `repl j content` where `j` counts
the matches; on a failed match the scan advances one character.  The
fuel argument bounds the scan as in `stripTagsGo`. -/
def subTagGo (openT closeT : List Char) (repl : ℕ → List Char → List Char) :
    ℕ → ℕ → List Char → List Char
  | _, _, [] => []
  | 0, _, l => l
  | fuel + 1, j, c :: rest =>
    if startsWithCI openT (c :: rest) then
      let afterOpen := (c :: rest).drop openT.length
      let content := afterOpen.takeWhile (fun d => !(d == '<'))
      let rest2 := afterOpen.drop content.length
      if startsWithCI closeT rest2 then
        repl j content ++ subTagGo openT closeT repl fuel (j + 1) (rest2.drop closeT.length)
      else c :: subTagGo openT closeT repl fuel j rest
    else c :: subTagGo openT closeT repl fuel j rest

/-- Literal open tag `<tag>`. -/
def mkOpenTag (tag : String) : List Char := '<' :: (tag.data ++ ['>'])

/-- Literal close tag `</tag>`. -/
def mkCloseTag (tag : String) : List Char := '<' :: '/' :: (tag.data ++ ['>'])

/-- The tag table of `convert_html_to_markdown_v2`, in source order:
b and strong to star, i and em to underscore, code to backtick, s and
strike to tilde. -/
def convertTags : List (String × Char) :=
  [("b", '*'), ("strong", '*'), ("i", '_'), ("em", '_'),
   ("code", Char.ofNat 96), ("s", '~'), ("strike", '~')]

/-- First tag pass of `convert_html_to_markdown_v2` (the loop that
collects `formatting_items`): its trailing `re.sub` replaces every
`<tag>content</tag>` with the interpolated f-string
`__FORMAT_{tag}_{re.finditer(...).__next__}__`, where the `{...}`
interpolation renders the repr of a bound iterator method.  `reprFun
tag j` supplies that rendered repr for the j-th match of a tag. -/
def firstPass (reprFun : String → ℕ → String) (l : List Char) : List Char :=
  convertTags.foldl (fun acc tc =>
    subTagGo (mkOpenTag tc.1) (mkCloseTag tc.1)
      (fun j _ => ("__FORMAT_" ++ tc.1 ++ "_").data ++ (reprFun tc.1 j).data ++ "__".data)
      acc.length 0 acc) l

/-- Second tag pass of `convert_html_to_markdown_v2` (the "direct
replacement" loop): `<tag>content</tag>` becomes the markdown marker
around the escaped content. -/
def secondPass (l : List Char) : List Char :=
  convertTags.foldl (fun acc tc =>
    subTagGo (mkOpenTag tc.1) (mkCloseTag tc.1)
      (fun _ content => tc.2 :: (escapeMdChars content ++ [tc.2]))
      acc.length 0 acc) l

/-- Embedding of `convert_html_to_markdown_v2`, restricted to bodies
containing no anchor tags (on such bodies the link extraction pass
finds nothing and restores nothing, so it is the identity): the first
tag pass, the second tag pass, then removal of the remaining `<...>`
spans. -/
def convert_html_to_markdown_v2 (reprFun : String → ℕ → String) (text : String) : String :=
  let t1 := firstPass reprFun text.data
  let t2 := secondPass t1
  String.mk (stripTagsGo t2.length t2)

/-- Embedding of `prepare_message_text`: bodies with a recognised tag
go through the HTML converter, the rest are escaped wholesale; the
parse mode is always MarkdownV2. -/
def prepare_message_text (reprFun : String → ℕ → String) (text : String) : String × String :=
  if hasHtmlTagAux text.data then (convert_html_to_markdown_v2 reprFun text, "MarkdownV2")
  else (escape_markdown_v2 text, "MarkdownV2")

/-- Representative rendering of the bound-method repr interpolated by
the first tag pass: `str(finditer(...).__next__)` always renders as
`<built-in method __next__ of callable_iterator object at 0x...>`,
an angle-bracketed span with no inner angle brackets. -/
def demoRepr : String → ℕ → String := fun _ _ => "<m>"

/- ======================================================================
   TELEGRAM SEND  (send_telegram_message_sync)
   ====================================================================== -/

/-- One outbound Bot API request as `make_request` builds it: the
payload text (field `text` or `caption`), whether the photo envelope
is used, the optional `parse_mode` entry and whether an inline button
is attached. -/
structure TgRequest where
  chat_id : ℤ
  text : String
  isPhoto : Bool
  parse_mode : Option String
  hasButton : Bool
deriving DecidableEq, Repr

/-- The fields of a Bot API response the task reads: HTTP status,
`ok`, `description` (absent entries read with the Python defaults),
`error_code` (default 0) and the `parameters.retry_after` value with
its default 30 already applied. -/
structure TgResponse where
  status_code : ℕ
  ok : Bool
  description : Option String
  error_code : ℤ
  retry_after : ℕ
deriving DecidableEq, Repr

/-- Result dictionary of `send_telegram_message_sync`. -/
structure SendResult where
  success : Bool
  error : Option String
  blocked : Bool
  retry_after : Option ℕ
deriving DecidableEq, Repr

/-- The word `can't`, written without an apostrophe literal. -/
def canTWord : String := String.mk ['c', 'a', 'n', Char.ofNat 39, 't']

/-- Plain "starts with" on character lists. -/
def startsWithChars : List Char → List Char → Bool
  | [], _ => true
  | _ :: _, [] => false
  | p :: ps, c :: cs => (p == c) && startsWithChars ps cs

/-- Python's `needle in haystack` substring test. -/
def hasSub (needle : List Char) : List Char → Bool
  | [] => needle.isEmpty
  | c :: rest => startsWithChars needle (c :: rest) || hasSub needle rest

/-- The retry trigger of `send_telegram_message_sync`: the lowered
description contains `parse`, `entities` or `can't`. -/
def descIndicatesParseError (r : TgResponse) : Bool :=
  let d := (r.description.getD "").toLower.data
  hasSub "parse".data d || hasSub "entities".data d || hasSub canTWord.data d

/-- Classification performed after the (possibly retried) request:
success on HTTP 200 with `ok`; 429 yields a rate-limit result carrying
`retry_after`; 403 and 400 mark the recipient blocked. -/
def classifyResponse (r : TgResponse) : SendResult :=
  if r.status_code == 200 && r.ok then
    { success := true, error := none, blocked := false, retry_after := none }
  else
    let description := r.description.getD "Unknown error"
    let blocked := r.error_code == 403 || r.error_code == 400
    if r.error_code == 429 then
      { success := false, error := some ("Rate limit: wait " ++ toString r.retry_after ++ "s"),
        blocked := false, retry_after := some r.retry_after }
    else
      { success := false, error := some description, blocked := blocked, retry_after := none }

/-- Embedding of `send_telegram_message_sync`.  `api` is the external
Bot API: the response it would give to a request (transport exceptions
are outside the model, so `api` is total).  Besides the result, the
list of requests actually issued is returned, in order.  The first
request carries the body verbatim with `parse_mode = HTML`; when its
response is not `ok` and the description indicates a parse/entities
problem, one retry is issued with the tags stripped and no parse
mode, and the final response is classified. -/
def send_telegram_message_sync (api : TgRequest → TgResponse) (chat_id : ℤ) (text : String)
    (photo_url : Option String) (button_text button_url : Option String) :
    SendResult × List TgRequest :=
  let hasButton := !(button_text.getD "" == "") && !(button_url.getD "" == "")
  let isPhoto := !(photo_url.getD "" == "")
  let mkReq := fun (msg : String) (useParseMode : Bool) =>
    { chat_id := chat_id, text := msg, isPhoto := isPhoto,
      parse_mode := if useParseMode then some "HTML" else none,
      hasButton := hasButton : TgRequest }
  let req1 := mkReq text true
  let resp1 := api req1
  if !resp1.ok && descIndicatesParseError resp1 then
    let req2 := mkReq (stripHtmlTags text) false
    (classifyResponse (api req2), [req1, req2])
  else
    (classifyResponse resp1, [req1])

/-- The first request `send_telegram_message_sync` issues for a body:
the payload text verbatim with the HTML parse mode. -/
def htmlRequest (chat_id : ℤ) (text : String)
    (photo_url button_text button_url : Option String) : TgRequest :=
  { chat_id := chat_id, text := text,
    isPhoto := !(photo_url.getD "" == ""),
    parse_mode := some "HTML",
    hasButton := !(button_text.getD "" == "") && !(button_url.getD "" == "") }

/-- The one retry request issued after a parse rejection: the same
envelope with every `<...>` tag stripped and no parse mode. -/
def plainRetryRequest (chat_id : ℤ) (text : String)
    (photo_url button_text button_url : Option String) : TgRequest :=
  { htmlRequest chat_id text photo_url button_text button_url with
    text := stripHtmlTags text, parse_mode := none }

/- ======================================================================
   DELIVERY EXECUTOR  (execute_broadcast)
   ====================================================================== -/

/-- A broadcast's segment: its `filter_rules` dictionary (empty models
the falsy `None`/`{}`) and its `static_user_ids` list. -/
structure Segment where
  filter_rules : List (String × RuleCond)
  static_user_ids : List ℕ
deriving Repr

/-- The campaign fields `execute_broadcast` and the cancel operations
read. -/
structure Broadcast where
  id : String
  message_text : String
  message_photo_url : Option String
  button_text : Option String
  button_url : Option String
  target_audience : Option String
  segment : Option Segment
  status : String
deriving Repr

/-- Recipient resolution of `execute_broadcast` (lines 537-554):
active users, narrowed by the segment's filter rules, a static id
list, or the legacy audience enum, in that priority order; the result
is the ordered list of `telegram_id` values.  In the legacy `free`
branch the SQL `IN` comparison with NULL matches no row, so only
tiers `free` and the empty string qualify. -/
def resolveRecipients (now : ℤ) (store : List User) (b : Broadcast) :
    Except String (List ℤ) :=
  let active := store.filter (fun u => u.status == "active")
  match b.segment with
  | some seg =>
    if !seg.filter_rules.isEmpty then
      match applySegmentFilter now seg.filter_rules active with
      | .error e => .error e
      | .ok us => .ok (us.map (fun u => u.telegram_id))
    else if !seg.static_user_ids.isEmpty then
      .ok ((store.filter (fun u =>
        seg.static_user_ids.contains u.id && u.status == "active")).map (fun u => u.telegram_id))
    else .ok (active.map (fun u => u.telegram_id))
  | none =>
    if b.target_audience == some "premium" then
      .ok ((active.filter (fun u =>
        u.subscription_tier == some "premium" || u.subscription_tier == some "basic")).map
          (fun u => u.telegram_id))
    else if b.target_audience == some "free" then
      .ok ((active.filter (fun u =>
        u.subscription_tier == some "free" || u.subscription_tier == some "")).map
          (fun u => u.telegram_id))
    else .ok (active.map (fun u => u.telegram_id))

/-- The cancellation marker the delivery loop's periodic poll compares
the refreshed status against (`broadcast.status == 'cancelled'`). -/
def cancelCheck (s : String) : Bool := s == "cancelled"

/-- Mutable loop accounting of `execute_broadcast`: the counters, the
blocked list, the last error, plus two observability ledgers of the
embedding: how many times the rate limiter was acquired and which
requests were issued (tagged by recipient index). -/
structure LoopState where
  sent : ℕ
  failed : ℕ
  blocked_users : List ℤ
  last_error : Option String
  acquires : ℕ
  requests : List (ℕ × TgRequest)
deriving Repr

/-- Environment a broadcast run observes: the recipient store, the
resolution instant, the configured bot token, the durable status the
poll at index `idx` would read back, and the Bot API's response per
recipient index. -/
structure ExecEnv where
  store : List User
  now : ℤ
  botToken : Option String
  statusAt : ℕ → String
  api : ℕ → TgRequest → TgResponse

/-- One loop iteration (lines 597-621): acquire the rate limiter, send
via `send_telegram_message_sync`, then bump exactly one of the two
counters, recording error and blocked recipient on failure. -/
def loopStep (env : ExecEnv) (b : Broadcast) (idx : ℕ) (tid : ℤ) (st : LoopState) : LoopState :=
  let (res, reqs) := send_telegram_message_sync (env.api idx) tid b.message_text
    b.message_photo_url b.button_text b.button_url
  let st1 := { st with acquires := st.acquires + 1,
                       requests := st.requests ++ reqs.map (fun r => (idx, r)) }
  if res.success then { st1 with sent := st1.sent + 1 }
  else
    { st1 with failed := st1.failed + 1,
               last_error := res.error,
               blocked_users :=
                 if res.blocked then st1.blocked_users ++ [tid] else st1.blocked_users }

/-- The recipient loop of `execute_broadcast` (lines 588-637): every
10 recipients the durable status is re-read and the loop breaks when
it reads `cancelled`; otherwise one `loopStep` runs.  Returns the
trace of loop states after each processed recipient, the final state,
and the `cancelled` flag. -/
def loopGo (env : ExecEnv) (b : Broadcast) :
    List ℤ → ℕ → LoopState → List LoopState × LoopState × Bool
  | [], _, st => ([], st, false)
  | tid :: rest, idx, st =>
    if idx % 10 == 0 && cancelCheck (env.statusAt idx) then ([], st, true)
    else
      let st1 := loopStep env b idx tid st
      let (tr, fin, c) := loopGo env b rest (idx + 1) st1
      (st1 :: tr, fin, c)

/-- Terminal summary of a run: the durable fields the final updates
write, plus the embedding's trace and ledgers. -/
structure RunResult where
  status : String
  total : ℕ
  sent : ℕ
  failed : ℕ
  cancelled : Bool
  blocked_users : List ℤ
  last_error : Option String
  trace : List LoopState
  acquires : ℕ
  requests : List (ℕ × TgRequest)
deriving Repr

/-- Embedding of `execute_broadcast`: missing token fails the run
before anything is sent; an empty audience transitions directly to
`sent` with zero counters; otherwise the loop runs and the terminal
status is `cancelled` or `sent`.  A `ValidationError` escaping the
segment filter propagates as `.error` (the task raises). -/
def executeBroadcast (env : ExecEnv) (b : Broadcast) : Except String RunResult :=
  if env.botToken.getD "" == "" then
    .ok { status := "failed", total := 0, sent := 0, failed := 0, cancelled := false,
          blocked_users := [], last_error := some "TELEGRAM_BOT_TOKEN not configured",
          trace := [], acquires := 0, requests := [] }
  else
    match resolveRecipients env.now env.store b with
    | .error e => .error e
    | .ok recipients =>
      let total := recipients.length
      if total == 0 then
        .ok { status := "sent", total := 0, sent := 0, failed := 0, cancelled := false,
              blocked_users := [], last_error := none, trace := [], acquires := 0,
              requests := [] }
      else
        let r := loopGo env b recipients 0
          { sent := 0, failed := 0, blocked_users := [], last_error := none,
            acquires := 0, requests := [] }
        let fin := r.2.1
        let cancelled := r.2.2
        .ok { status := if cancelled then "cancelled" else "sent",
              total := total, sent := fin.sent, failed := fin.failed,
              cancelled := cancelled, blocked_users := fin.blocked_users,
              last_error := if cancelled then some "Stopped by user" else fin.last_error,
              trace := r.1, acquires := fin.acquires, requests := fin.requests }

/- ======================================================================
   CANCEL OPERATIONS  (admin action; API endpoint modelled from the spec)
   ====================================================================== -/

/-- Embedding of `BroadcastAdmin.cancel_broadcast_action`: the bulk
admin action filters the selection to statuses `draft` and `scheduled`
and updates those rows to status `draft`. -/
def cancel_broadcast_action (qs : List Broadcast) : List Broadcast :=
  qs.map (fun b =>
    if b.status == "draft" || b.status == "scheduled" then { b with status := "draft" } else b)

/-- Modelled from the spec: the `broadcasts_api_cancel` view is
imported and routed in `admin_panel/urls.py` but absent from
`core/views.py`, so its body is reconstructed from spec section 6:
`POST cancel` is accepted only when the status is `draft`, `scheduled`
or `sending`, and on acceptance sets the status to the
cancel-requested marker the executor observes; otherwise the record is
unchanged and the call is rejected with a conflict. -/
def broadcasts_api_cancel (b : Broadcast) : Broadcast × Bool :=
  if b.status == "draft" || b.status == "scheduled" || b.status == "sending" then
    ({ b with status := "cancelled" }, true)
  else (b, false)

/- ======================================================================
   RATE LIMITER  (TelegramRateLimiter.acquire)
   ====================================================================== -/

/-- Shared limiter state: the send-timestamp history the cache holds
and the current clock reading.  Time is rational; sleeping advances
the clock, and successive "rapid" calls read the same clock. -/
structure LimiterState where
  history : List ℚ
  now : ℚ
deriving Repr

/-- Python `min(history)`, totalised: the fold of `min` over a
nonempty list (the empty case never arises when rate is at least 1,
since the branch requires the pruned history to hold `rate` entries). -/
def pyMin : List ℚ → ℚ
  | [] => 0
  | a :: as => as.foldl min a

/-- Embedding of `TelegramRateLimiter.acquire` (lines 141-167): prune
entries older than `period`, sleep until the oldest pruned entry exits
the window when the pruned history already holds `rate` entries, then
record the new clock reading. -/
def acquire (rate : ℕ) (period : ℚ) (s : LimiterState) : LimiterState :=
  let now := s.now
  let cutoff := now - period
  let history := s.history.filter (fun t => decide (cutoff < t))
  if rate ≤ history.length then
    let oldest := pyMin history
    let wait := oldest + period - now
    let now2 := if 0 < wait then now + wait else now
    { history := history ++ [now2], now := now2 }
  else
    { history := history ++ [now], now := now }

/-- Timestamps recorded by `k` successive rapid `acquire` calls from
state `s`, in order: each call's recorded entry is the clock reading
at the moment it appends to the history. -/
def runFrom (rate : ℕ) (period : ℚ) : ℕ → LimiterState → List ℚ
  | 0, _ => []
  | k + 1, s =>
    let s1 := acquire rate period s
    s1.now :: runFrom rate period k s1

/-- The gap property of a timestamp list: any two entries `rate`
positions apart are at least `period` apart in time. -/
def GapProp (rate : ℕ) (period : ℚ) (l : List ℚ) : Prop :=
  ∀ i : ℕ, (h : i + rate < l.length) →
    l.get ⟨i, Nat.lt_of_le_of_lt (Nat.le_add_right i rate) h⟩ + period ≤ l.get ⟨i + rate, h⟩

/-- Invariant tying a limiter state to the full chronological list
`ts` of recorded timestamps: the cached history is a suffix of `ts`;
`ts` is sorted and bounded by the clock; every timestamp still inside
the current window is retained in the history; the pruned history
never exceeds `rate` entries; and `ts` satisfies the gap property. -/
def LimiterInv (rate : ℕ) (period : ℚ) (s : LimiterState) (ts : List ℚ) : Prop :=
  s.history <:+ ts
  ∧ ts.Sorted (· ≤ ·)
  ∧ (∀ t ∈ ts, t ≤ s.now)
  ∧ ts.filter (fun t => decide (s.now - period < t)) <:+ s.history
  ∧ (s.history.filter (fun t => decide (s.now - period < t))).length ≤ rate
  ∧ GapProp rate period ts

/- ======================================================================
   CONCRETE OBJECTS used by witnesses and counterexamples
   ====================================================================== -/

/-- First poll index at which a run observes a cancellation requested
after `c` recipients were processed: the least multiple of 10 that is
at least `c`. -/
def cancelBreakIdx (c : ℕ) : ℕ := 10 * ((c + 9) / 10)

/-- An active user with NULL tier, for concrete runs. -/
def demoActive (i : ℕ) : User :=
  { id := i, telegram_id := (i : ℤ), status := "active",
    subscription_tier := none, date_created := 0 }

/-- A store of `n` active users. -/
def demoStoreN (n : ℕ) : List User := (List.range n).map demoActive

/-- Active premium user. -/
def demoPrem : User :=
  { id := 1, telegram_id := 11, status := "active",
    subscription_tier := some "premium", date_created := 0 }

/-- Active free user. -/
def demoFree : User :=
  { id := 2, telegram_id := 12, status := "active",
    subscription_tier := some "free", date_created := 0 }

/-- Active user created at instant 0. -/
def demoOld : User :=
  { id := 3, telegram_id := 13, status := "active",
    subscription_tier := none, date_created := 0 }

/-- Active user created ten days in. -/
def demoNew : User :=
  { id := 4, telegram_id := 14, status := "active",
    subscription_tier := none, date_created := 10 * oneDay }

/-- The premium-or-null segment rule of the specification:
`{"subscription_tier": {"in": ["premium", null]}}`. -/
def tierInRule : List (String × RuleCond) :=
  [("subscription_tier", RuleCond.ops
    [("in", FilterValue.vlist [FilterAtom.astr "premium", FilterAtom.anull])])]

/-- A rule using an operator outside the recognised set. -/
def unknownOpRule : List (String × RuleCond) :=
  [("subscription_tier", RuleCond.ops [("matches", FilterValue.vstr "premium")])]

/-- The relative-date rule `{"date_created": {"gte": "-7 days"}}`. -/
def gteRelRule : List (String × RuleCond) :=
  [("date_created", RuleCond.ops [("gte", FilterValue.vstr "-7 days")])]

/-- Relative-date rule with the `lte` operator and a week unit. -/
def lteRelRule : List (String × RuleCond) :=
  [("date_created", RuleCond.ops [("lte", FilterValue.vstr "-2 weeks")])]

/-- Relative-date rule with the `lt` operator and a month unit. -/
def ltRelRule : List (String × RuleCond) :=
  [("date_created", RuleCond.ops [("lt", FilterValue.vstr "-1 month")])]

/-- The same relative expression under the `gt` operator. -/
def gtRelRule : List (String × RuleCond) :=
  [("date_created", RuleCond.ops [("gt", FilterValue.vstr "-7 days")])]

/-- A successful Bot API response. -/
def okResp : TgResponse :=
  { status_code := 200, ok := true, description := none, error_code := 0, retry_after := 30 }

/-- A response rejecting the HTML entities of the payload. -/
def parseErrResp : TgResponse :=
  { status_code := 400, ok := false,
    description := some ("Bad Request: " ++ canTWord ++ " parse entities"),
    error_code := 400, retry_after := 30 }

/-- A broadcast carrying an HTML body, no photo and no button. -/
def demoBroadcast : Broadcast :=
  { id := "b1", message_text := "<b>Hi</b> 100% done!", message_photo_url := none,
    button_text := none, button_url := none, target_audience := none,
    segment := none, status := "sending" }

/-- A broadcast in status `sending`. -/
def bSending : Broadcast := { demoBroadcast with id := "b2", status := "sending" }

/-- A broadcast in status `draft`. -/
def bDraft : Broadcast := { demoBroadcast with id := "b3", status := "draft" }

/-- Environment of a two-recipient run whose sends all succeed and
which nobody cancels. -/
def demoEnvPlain : ExecEnv :=
  { store := demoStoreN 2, now := 0, botToken := some "tok",
    statusAt := fun _ => "sending", api := fun _ _ => okResp }

/-- Environment of a thirty-recipient run cancelled after five
recipients were processed. -/
def demoEnvCancel : ExecEnv :=
  { store := demoStoreN 30, now := 0, botToken := some "tok",
    statusAt := fun i => if 5 ≤ i then "cancelled" else "sending",
    api := fun _ _ => okResp }

/-- Environment with an empty recipient store. -/
def demoEnvEmpty : ExecEnv :=
  { store := [], now := 0, botToken := some "tok",
    statusAt := fun _ => "sending", api := fun _ _ => okResp }

/-- Environment whose API rejects HTML payloads as unparsable and
accepts the plain-text retry. -/
def demoEnvParseErr : ExecEnv :=
  { store := demoStoreN 2, now := 0, botToken := some "tok",
    statusAt := fun _ => "sending",
    api := fun _ req => if req.parse_mode == some "HTML" then parseErrResp else okResp }

/-- Fallback run record for total extraction. -/
def emptyRunResult : RunResult :=
  { status := "", total := 0, sent := 0, failed := 0, cancelled := false,
    blocked_users := [], last_error := none, trace := [], acquires := 0, requests := [] }

instance : Inhabited RunResult := ⟨emptyRunResult⟩

/-- The run record of `demoEnvPlain`. -/
def demoRunPlain : RunResult := (executeBroadcast demoEnvPlain demoBroadcast).toOption.getD emptyRunResult

/-- The run record of `demoEnvCancel`. -/
def demoRunCancel : RunResult := (executeBroadcast demoEnvCancel demoBroadcast).toOption.getD emptyRunResult

/-- The run record of `demoEnvParseErr`. -/
def demoRunParseErr : RunResult := (executeBroadcast demoEnvParseErr demoBroadcast).toOption.getD emptyRunResult

/- ======================================================================
   THEOREMS
   ====================================================================== -/

/-- The derived `==` on column values is propositional equality. -/
theorem beq_fieldval (a b : FieldVal) : (a == b) = decide (a = b) := rfl

/-- C5: over every recipient store, the segment rule
`{"subscription_tier": {"in": ["premium", null]}}` matches exactly the
active users whose tier is `premium`, NULL or the empty string, and
the matched set contains no `free`-tier user. -/
theorem segment_in_null_tier_rule :
    ∀ (store : List User) (now : ℤ),
      applySegmentFilter now tierInRule (store.filter (fun u => u.status == "active"))
        = Except.ok ((store.filter (fun u => u.status == "active")).filter
            (fun u => decide (u.subscription_tier = some "premium"
              ∨ u.subscription_tier = none ∨ u.subscription_tier = some "")))
      ∧ ((store.filter (fun u => u.status == "active")).filter
            (fun u => decide (u.subscription_tier = some "premium"
              ∨ u.subscription_tier = none ∨ u.subscription_tier = some ""))).all
          (fun u => decide (u.subscription_tier ≠ some "free")) = true := by
  intro store now
  constructor
  · have h : ∀ u ∈ store.filter (fun u => u.status == "active"),
        ((u.getField "subscription_tier" == FieldVal.fnull)
          || [FilterAtom.astr "premium"].any (fun x => (u.getField "subscription_tier").eqAtom x)
          || (("subscription_tier" : String) == "subscription_tier"
              && (u.getField "subscription_tier" == FieldVal.fstr "")))
        = decide (u.subscription_tier = some "premium"
            ∨ u.subscription_tier = none ∨ u.subscription_tier = some "") := by
      intro u _
      rcases hu : u.subscription_tier with _ | s
      · simp [User.getField, hu]
      · by_cases hs : s = "premium" <;> by_cases hs2 : s = "" <;>
          simp [User.getField, hu, FieldVal.eqAtom, beq_fieldval, hs, hs2]
    calc applySegmentFilter now tierInRule (store.filter (fun u => u.status == "active"))
        = Except.ok ((store.filter (fun u => u.status == "active")).filter (fun u =>
            (u.getField "subscription_tier" == FieldVal.fnull)
            || [FilterAtom.astr "premium"].any (fun x => (u.getField "subscription_tier").eqAtom x)
            || (("subscription_tier" : String) == "subscription_tier"
                && (u.getField "subscription_tier" == FieldVal.fstr "")))) := rfl
      _ = _ := by rw [List.filter_congr h]
  · rw [List.all_eq_true]
    intro u hu
    rw [List.mem_filter] at hu
    rcases hu with ⟨_, hp⟩
    simp at hp
    rcases hp with h | h | h <;> simp [h]

/-- C6 counterexample: a rule with the unrecognised operator `matches`
leaves the queryset unchanged and raises nothing — resolution does not
reject it with a validation error. -/
theorem unknown_op_not_rejected :
    applySegmentFilter 0 unknownOpRule [demoPrem, demoFree] = Except.ok [demoPrem, demoFree] := by
  with_unfolding_all rfl

/-- C6 amended: an operator outside
{`in`, `eq`, `gte`, `lte`, `gt`, `lt`, `is_null`} falls through the
dispatch chain of `apply_segment_filter` and is silently ignored: the
queryset comes back unchanged and no error is produced. -/
theorem unknown_op_silently_ignored (now : ℤ) (store : List User)
    (field op : String) (v : FilterValue)
    (h : op ∉ ["in", "eq", "gte", "lte", "gt", "lt", "is_null"]) :
    applySegmentFilter now [(field, RuleCond.ops [(op, v)])] store = Except.ok store := by
  simp [List.mem_cons] at h
  obtain ⟨h1, h2, h3, h4, h5, h6, h7⟩ := h
  simp [applySegmentFilter, applyOnePair, h1, h2, h3, h4, h5, h6, h7]

/-- C6 witness: the amended statement at the concrete unknown operator
`matches` over a two-user store. -/
theorem unknown_op_silently_ignored_witness :
    ("matches" : String) ∉ ["in", "eq", "gte", "lte", "gt", "lt", "is_null"]
    ∧ applySegmentFilter 0 [("subscription_tier", RuleCond.ops
        [("matches", FilterValue.vstr "premium")])] [demoPrem, demoFree]
      = Except.ok [demoPrem, demoFree] :=
  ⟨by decide,
   unknown_op_silently_ignored 0 [demoPrem, demoFree] "subscription_tier" "matches"
     (FilterValue.vstr "premium") (by decide)⟩

/-- C7 counterexample: under the `gt` operator the relative expression
`"-7 days"` is not resolved against now; the raw string reaches the
store and the query fails, instead of filtering on a resolved instant. -/
theorem gt_relative_not_resolved :
    applySegmentFilter 0 gtRelRule [demoOld, demoNew] = Except.error "ValidationError" := by
  with_unfolding_all rfl

/-- C7 amended: for the operators `gte`, `lte` and `lt` a relative
expression `-N unit` resolves against now at resolution time (so the
seven-day rule evaluated at instants 8 days apart selects different
sets over the same store); the `gt` operator has no relative-time
branch and passes the raw value through. -/
theorem relative_time_resolution :
    (∀ (store : List User) (now : ℤ),
      applySegmentFilter now gteRelRule store
        = Except.ok (store.filter (fun u => decide (now - 7 * oneDay ≤ u.date_created))))
    ∧ (∀ (store : List User) (now : ℤ),
      applySegmentFilter now lteRelRule store
        = Except.ok (store.filter (fun u => decide (u.date_created ≤ now - 14 * oneDay))))
    ∧ (∀ (store : List User) (now : ℤ),
      applySegmentFilter now ltRelRule store
        = Except.ok (store.filter (fun u => decide (u.date_created < now - 30 * oneDay))))
    ∧ applySegmentFilter (12 * oneDay) gteRelRule [demoOld, demoNew] = Except.ok [demoNew]
    ∧ applySegmentFilter (20 * oneDay) gteRelRule [demoOld, demoNew] = Except.ok [] := by
  refine ⟨fun store now => by with_unfolding_all rfl,
          fun store now => by with_unfolding_all rfl,
          fun store now => by with_unfolding_all rfl,
          by with_unfolding_all rfl, by with_unfolding_all rfl⟩

theorem escapeMdChars_nil_iff (l : List Char) : escapeMdChars l = [] ↔ l = [] := by
  cases l with
  | nil => simp [escapeMdChars]
  | cons c rest =>
    constructor
    · intro h
      by_cases hc : c ∈ escapeChars <;> simp [escapeMdChars, hc] at h
    · intro h
      exact absurd h (List.cons_ne_nil c rest)

theorem escapeMdChars_head_not_esc (l : List Char) (x : Char) (xs : List Char)
    (h : escapeMdChars l = x :: xs) : x ∉ escapeChars := by
  cases l with
  | nil => simp [escapeMdChars] at h
  | cons c rest =>
    by_cases hc : c ∈ escapeChars <;> simp [escapeMdChars, hc] at h
    · rcases h with ⟨h1, _⟩
      subst h1
      decide
    · rcases h with ⟨h1, _⟩
      subst h1
      exact hc

theorem removeMd_escape_id : ∀ l : List Char, removeMdEscapes (escapeMdChars l) = l := by
  intro l
  induction l with
  | nil => rfl
  | cons c rest ih =>
    by_cases hc : c ∈ escapeChars
    · have h2 : escapeMdChars (c :: rest) = '\\' :: c :: escapeMdChars rest := by
        simp [escapeMdChars, hc]
      rw [h2, removeMdEscapes, if_pos hc, ih]
    · have hne : escapeMdChars (c :: rest) = c :: escapeMdChars rest := by
        simp [escapeMdChars, hc]
      rw [hne]
      by_cases hbs : c = '\\'
      · subst hbs
        rcases hX : escapeMdChars rest with _ | ⟨x, xs⟩
        · rw [(escapeMdChars_nil_iff rest).mp hX] at ih ⊢
          simp [removeMdEscapes]
        · have hx : x ∉ escapeChars := escapeMdChars_head_not_esc rest x xs hX
          rw [show removeMdEscapes ('\\' :: x :: xs) = '\\' :: removeMdEscapes (x :: xs) from by
                simp [removeMdEscapes, hx], ← hX, ih]
      · rcases hX : escapeMdChars rest with _ | ⟨x, xs⟩
        · rw [(escapeMdChars_nil_iff rest).mp hX] at ih ⊢
          simp [removeMdEscapes, hbs]
        · rw [show removeMdEscapes (c :: x :: xs) = c :: removeMdEscapes (x :: xs) from by
                simp [removeMdEscapes, hbs], ← hX, ih]

/-- C4: the formatter does not map `<b>Hi</b> 100% done!` to escaped
MarkdownV2 with bold preserved: the first tag pass replaces the bold
span with a placeholder embedding a bound-method repr, which the final
tag removal then truncates, so the HTML path emits
`__FORMAT_b___ 100% done!` — the bold emphasis is destroyed and the
trailing `!` is left unescaped.  A body with no recognised tag is
escaped wholesale, and removing the escapes restores the body. -/
theorem formatter_bold_body_evaluation :
    prepare_message_text demoRepr "<b>Hi</b> 100% done!"
      = ("__FORMAT_b___ 100% done!", "MarkdownV2")
    ∧ prepare_message_text demoRepr "Hello. 100% done!"
      = (escape_markdown_v2 "Hello. 100% done!", "MarkdownV2")
    ∧ escape_markdown_v2 "Hello. 100% done!" = "Hello\\. 100% done\\!"
    ∧ (∀ l : List Char, removeMdEscapes (escapeMdChars l) = l) := by
  refine ⟨by with_unfolding_all rfl, by with_unfolding_all rfl,
          by with_unfolding_all rfl, removeMd_escape_id⟩

/-- C9 counterexample: the in-source cancel operation (the admin bulk
action) does not accept a `sending` campaign — it leaves it untouched —
and for an accepted `draft` campaign it sets status `draft`, which is
not the marker the executor's poll observes. -/
theorem admin_cancel_rejects_sending :
    cancel_broadcast_action [bSending] = [bSending]
    ∧ cancel_broadcast_action [bDraft] = [{ bDraft with status := "draft" }]
    ∧ (cancel_broadcast_action [bDraft]).map Broadcast.status = ["draft"]
    ∧ cancelCheck "draft" = false := by
  refine ⟨by with_unfolding_all rfl, by with_unfolding_all rfl, by with_unfolding_all rfl, by decide⟩

/-- C9 amended: the POST cancel endpoint (absent from the source and
modelled from the spec) is accepted exactly for status `draft`,
`scheduled` or `sending` and sets the `cancelled` marker the
executor's poll observes; the in-source admin bulk action accepts only
`draft` and `scheduled` and resets them to `draft`, which the
executor's check does not observe. -/
theorem cancel_semantics :
    (∀ b : Broadcast, (broadcasts_api_cancel b).2 = true
      ↔ (b.status = "draft" ∨ b.status = "scheduled" ∨ b.status = "sending"))
    ∧ (∀ b : Broadcast, (broadcasts_api_cancel b).2 = true
        → cancelCheck (broadcasts_api_cancel b).1.status = true)
    ∧ (∀ b : Broadcast, b.status = "sending" → cancel_broadcast_action [b] = [b])
    ∧ (∀ b : Broadcast, (b.status = "draft" ∨ b.status = "scheduled")
        → (cancel_broadcast_action [b]).map Broadcast.status = ["draft"]
          ∧ cancelCheck "draft" = false) := by
  refine ⟨?_, ?_, ?_, ?_⟩
  · intro b
    constructor
    · intro h
      by_cases h1 : b.status = "draft"
      · exact Or.inl h1
      by_cases h2 : b.status = "scheduled"
      · exact Or.inr (Or.inl h2)
      by_cases h3 : b.status = "sending"
      · exact Or.inr (Or.inr h3)
      · simp [broadcasts_api_cancel, h1, h2, h3] at h
    · intro h
      rcases h with h | h | h <;> simp [broadcasts_api_cancel, h]
  · intro b h
    by_cases h1 : b.status = "draft" <;> by_cases h2 : b.status = "scheduled" <;>
      by_cases h3 : b.status = "sending" <;>
        simp [broadcasts_api_cancel, cancelCheck, h1, h2, h3] at h ⊢
  · intro b h
    simp [cancel_broadcast_action, h]
  · intro b h
    rcases h with h | h <;> simp [cancel_broadcast_action, cancelCheck, h]

/-- C9 witness: the amended statement at a `sending` and a `draft`
campaign. -/
theorem cancel_semantics_witness :
    (broadcasts_api_cancel bSending).2 = true
    ∧ cancelCheck (broadcasts_api_cancel bSending).1.status = true
    ∧ cancel_broadcast_action [bSending] = [bSending]
    ∧ (cancel_broadcast_action [bDraft]).map Broadcast.status = ["draft"]
    ∧ cancelCheck "draft" = false :=
  ⟨(cancel_semantics.1 bSending).mpr (Or.inr (Or.inr (by decide))),
   cancel_semantics.2.1 bSending
     ((cancel_semantics.1 bSending).mpr (Or.inr (Or.inr (by decide)))),
   cancel_semantics.2.2.1 bSending (by decide),
   (cancel_semantics.2.2.2 bDraft (Or.inl (by decide))).1,
   (cancel_semantics.2.2.2 bDraft (Or.inl (by decide))).2⟩

/-- Each loop iteration increments exactly one of the two counters. -/
theorem loopStep_counts (env : ExecEnv) (b : Broadcast) (idx : ℕ) (tid : ℤ) (st : LoopState) :
    (loopStep env b idx tid st).sent + (loopStep env b idx tid st).failed
      = st.sent + st.failed + 1 := by
  unfold loopStep
  rcases h : send_telegram_message_sync (env.api idx) tid b.message_text
    b.message_photo_url b.button_text b.button_url with ⟨res, reqs⟩
  by_cases hs : res.success = true <;> simp [h, hs] <;> omega

/-- Loop accounting: every traced state and the final state stay
within the remaining budget, and an uncancelled loop exhausts it. -/
theorem loopGo_spec (env : ExecEnv) (b : Broadcast) :
    ∀ (recips : List ℤ) (idx : ℕ) (st : LoopState),
      (∀ s ∈ (loopGo env b recips idx st).1,
        s.sent + s.failed ≤ st.sent + st.failed + recips.length)
      ∧ (loopGo env b recips idx st).2.1.sent + (loopGo env b recips idx st).2.1.failed
          ≤ st.sent + st.failed + recips.length
      ∧ ((loopGo env b recips idx st).2.2 = false →
          (loopGo env b recips idx st).2.1.sent + (loopGo env b recips idx st).2.1.failed
            = st.sent + st.failed + recips.length) := by
  intro recips
  induction recips with
  | nil => intro idx st; simp [loopGo]
  | cons tid rest ih =>
    intro idx st
    by_cases hbrk : (idx % 10 == 0 && cancelCheck (env.statusAt idx)) = true
    · simp [loopGo, hbrk]
    · have hst := loopStep_counts env b idx tid st
      have h1 := (ih (idx + 1) (loopStep env b idx tid st)).1
      have h2 := (ih (idx + 1) (loopStep env b idx tid st)).2.1
      have h3 := (ih (idx + 1) (loopStep env b idx tid st)).2.2
      rcases hgo : loopGo env b rest (idx + 1) (loopStep env b idx tid st) with ⟨tr, fin, c⟩
      rw [hgo] at h1 h2 h3
      simp only [loopGo, hbrk, Bool.false_eq_true, if_false, hgo]
      refine ⟨?_, ?_, ?_⟩
      · intro s hs
        rcases List.mem_cons.mp hs with h | h
        · subst h; simp; omega
        · have := h1 s h; simp at this ⊢; omega
      · simp at h2 ⊢; omega
      · intro hc
        subst hc
        have := h3 rfl
        simp at this ⊢
        omega

/-- C1: for every run accepted by `execute_broadcast`, each observed
loop state satisfies `sent + failed ≤ total_recipients`, the terminal
counters satisfy it as well, and at a terminal status other than
`cancelled` equality holds. -/
theorem broadcast_counter_invariant (env : ExecEnv) (b : Broadcast) (r : RunResult)
    (h : executeBroadcast env b = Except.ok r) :
    (∀ s ∈ r.trace, s.sent + s.failed ≤ r.total)
    ∧ r.sent + r.failed ≤ r.total
    ∧ (r.status ≠ "cancelled" → r.sent + r.failed = r.total) := by
  unfold executeBroadcast at h
  by_cases htok : (env.botToken.getD "" == "") = true
  · rw [if_pos htok] at h
    injection h with h2
    subst h2
    simp
  · rw [if_neg htok] at h
    rcases hres : resolveRecipients env.now env.store b with e | recips
    · rw [hres] at h
      cases h
    · rw [hres] at h
      dsimp only at h
      by_cases hz : (recips.length == 0) = true
      · rw [if_pos hz] at h
        injection h with h2
        subst h2
        simp
      · rw [if_neg hz] at h
        have hspec := loopGo_spec env b recips 0
          { sent := 0, failed := 0, blocked_users := [], last_error := none,
            acquires := 0, requests := [] }
        rcases hgo : loopGo env b recips 0
          { sent := 0, failed := 0, blocked_users := [], last_error := none,
            acquires := 0, requests := [] } with ⟨tr, fin, c⟩
        rw [hgo] at hspec h
        simp only at h
        injection h with h2
        subst h2
        rcases hspec with ⟨hs1, hs2, hs3⟩
        simp only at hs1 hs2 hs3
        refine ⟨?_, ?_, ?_⟩
        · intro s hs
          have := hs1 s hs
          simpa using this
        · simpa using hs2
        · intro hnc
          cases c
          · have := hs3 rfl
            simpa using this
          · exfalso
            apply hnc
            simp

/-- C1 witness: the invariant at a concrete two-recipient run. -/
theorem broadcast_counter_invariant_witness :
    executeBroadcast demoEnvPlain demoBroadcast = Except.ok demoRunPlain
    ∧ (∀ s ∈ demoRunPlain.trace, s.sent + s.failed ≤ demoRunPlain.total)
    ∧ demoRunPlain.sent + demoRunPlain.failed ≤ demoRunPlain.total
    ∧ (demoRunPlain.status ≠ "cancelled"
        → demoRunPlain.sent + demoRunPlain.failed = demoRunPlain.total) :=
  ⟨by with_unfolding_all rfl,
   (broadcast_counter_invariant demoEnvPlain demoBroadcast demoRunPlain
     (by with_unfolding_all rfl)).1,
   (broadcast_counter_invariant demoEnvPlain demoBroadcast demoRunPlain
     (by with_unfolding_all rfl)).2.1,
   (broadcast_counter_invariant demoEnvPlain demoBroadcast demoRunPlain
     (by with_unfolding_all rfl)).2.2⟩

/-- C8: a run whose audience resolves to zero recipients transitions
directly to the terminal success state with `total_recipients = 0`,
all counters zero, no rate-limiter acquisition and no request issued. -/
theorem zero_recipients_direct_success (env : ExecEnv) (b : Broadcast)
    (htok : ¬ (env.botToken.getD "" == "") = true)
    (hres : resolveRecipients env.now env.store b = Except.ok []) :
    executeBroadcast env b = Except.ok
      { status := "sent", total := 0, sent := 0, failed := 0, cancelled := false,
        blocked_users := [], last_error := none, trace := [], acquires := 0, requests := [] } := by
  unfold executeBroadcast
  rw [if_neg htok, hres]
  rfl

/-- C8 witness: the zero-recipient behaviour on an empty store. -/
theorem zero_recipients_direct_success_witness :
    ¬ (demoEnvEmpty.botToken.getD "" == "") = true
    ∧ resolveRecipients demoEnvEmpty.now demoEnvEmpty.store demoBroadcast = Except.ok []
    ∧ executeBroadcast demoEnvEmpty demoBroadcast = Except.ok
      { status := "sent", total := 0, sent := 0, failed := 0, cancelled := false,
        blocked_users := [], last_error := none, trace := [], acquires := 0, requests := [] } :=
  ⟨by decide, by with_unfolding_all rfl,
   zero_recipients_direct_success demoEnvEmpty demoBroadcast (by decide)
     (by with_unfolding_all rfl)⟩

/-- One loop iteration appends exactly the requests its send issued,
tagged with the recipient index. -/
theorem loopStep_requests (env : ExecEnv) (b : Broadcast) (idx : ℕ) (tid : ℤ) (st : LoopState) :
    (loopStep env b idx tid st).requests
      = st.requests ++ (send_telegram_message_sync (env.api idx) tid b.message_text
          b.message_photo_url b.button_text b.button_url).2.map (fun r => (idx, r)) := by
  unfold loopStep
  rcases h : send_telegram_message_sync (env.api idx) tid b.message_text
    b.message_photo_url b.button_text b.button_url with ⟨res, reqs⟩
  by_cases hs : res.success = true <;> simp [h, hs]

/-- A loop whose durable status reads `cancelled` from threshold `c`
onwards breaks at the first poll index at or beyond `c`, preserving
the counts accumulated so far and issuing no request at or beyond the
break index. -/
theorem loopGo_cancel (env : ExecEnv) (b : Broadcast) (c : ℕ)
    (hc : ∀ i, cancelCheck (env.statusAt i) = decide (c ≤ i)) :
    ∀ (recips : List ℤ) (idx : ℕ) (st : LoopState),
      idx ≤ cancelBreakIdx c →
      cancelBreakIdx c < idx + recips.length →
      (∀ p ∈ st.requests, p.1 < cancelBreakIdx c) →
      (loopGo env b recips idx st).2.2 = true
      ∧ (loopGo env b recips idx st).2.1.sent + (loopGo env b recips idx st).2.1.failed
          = st.sent + st.failed + (cancelBreakIdx c - idx)
      ∧ (∀ p ∈ (loopGo env b recips idx st).2.1.requests, p.1 < cancelBreakIdx c) := by
  intro recips
  induction recips with
  | nil =>
    intro idx st hidx hlen _
    simp at hlen
    omega
  | cons tid rest ih =>
    intro idx st hidx hlen hreq
    have hBdef : cancelBreakIdx c = 10 * ((c + 9) / 10) := rfl
    by_cases hbrk : (idx % 10 == 0 && cancelCheck (env.statusAt idx)) = true
    · rw [hc idx] at hbrk
      have h10 : idx % 10 = 0 := by
        rcases Bool.and_eq_true_iff.mp hbrk with ⟨h1, _⟩
        simpa using h1
      have hcle : c ≤ idx := by
        rcases Bool.and_eq_true_iff.mp hbrk with ⟨_, h2⟩
        exact of_decide_eq_true h2
      have hidxB : idx = cancelBreakIdx c := by omega
      rw [← hc idx] at hbrk
      have hval : loopGo env b (tid :: rest) idx st = ([], st, true) := by
        simp [loopGo, hbrk]
      rw [hval]
      refine ⟨rfl, ?_, hreq⟩
      show st.sent + st.failed = st.sent + st.failed + (cancelBreakIdx c - idx)
      omega
    · have hlt : idx < cancelBreakIdx c := by
        rw [hc idx] at hbrk
        rcases Nat.lt_or_ge idx (cancelBreakIdx c) with h | h
        · exact h
        have hidxB : idx = cancelBreakIdx c := by omega
        exfalso
        apply hbrk
        rw [Bool.and_eq_true_iff]
        constructor
        · have : idx % 10 = 0 := by omega
          simpa using this
        · have : c ≤ idx := by omega
          simpa using this
      have hreq1 : ∀ p ∈ (loopStep env b idx tid st).requests, p.1 < cancelBreakIdx c := by
        intro p hp
        rw [loopStep_requests] at hp
        rcases List.mem_append.mp hp with h | h
        · exact hreq p h
        · rcases List.mem_map.mp h with ⟨q, _, hq2⟩
          rw [← hq2]
          exact hlt
      have hstep := loopStep_counts env b idx tid st
      have := ih (idx + 1) (loopStep env b idx tid st) (by omega) (by simp at hlen ⊢; omega) hreq1
      rcases hgo : loopGo env b rest (idx + 1) (loopStep env b idx tid st) with ⟨tr, fin, cc⟩
      rw [hgo] at this
      rcases this with ⟨t1, t2, t3⟩
      have hval : loopGo env b (tid :: rest) idx st
          = (loopStep env b idx tid st :: tr, fin, cc) := by
        simp [loopGo, hbrk, hgo]
      rw [hval]
      refine ⟨t1, ?_, t3⟩
      simp only at t2 ⊢
      omega

/-- C3: when the durable status reads `cancelled` exactly from
threshold `c` on, a run with more recipients than the break index
terminates with status `cancelled`, counters preserved at the break
index — which lies within `[c, c + 9]`, hence within `[5, 15]` for
`c = 5` — and every issued request precedes the break index, so no
send occurs after the observation. -/
theorem cancellation_poll_stops_run (env : ExecEnv) (b : Broadcast) (c : ℕ) (r : RunResult)
    (hc : ∀ i, cancelCheck (env.statusAt i) = decide (c ≤ i))
    (hr : executeBroadcast env b = Except.ok r)
    (hB : cancelBreakIdx c < r.total) :
    r.status = "cancelled" ∧ r.cancelled = true
    ∧ r.sent + r.failed = cancelBreakIdx c
    ∧ c ≤ cancelBreakIdx c ∧ cancelBreakIdx c ≤ c + 9
    ∧ (∀ p ∈ r.requests, p.1 < cancelBreakIdx c) := by
  have hBdef : cancelBreakIdx c = 10 * ((c + 9) / 10) := rfl
  unfold executeBroadcast at hr
  by_cases htok : (env.botToken.getD "" == "") = true
  · rw [if_pos htok] at hr
    injection hr with h2
    subst h2
    simp at hB
  · rw [if_neg htok] at hr
    rcases hres : resolveRecipients env.now env.store b with e | recips
    · rw [hres] at hr
      cases hr
    · rw [hres] at hr
      dsimp only at hr
      by_cases hz : (recips.length == 0) = true
      · rw [if_pos hz] at hr
        injection hr with h2
        subst h2
        simp at hB
      · rw [if_neg hz] at hr
        have hcan := loopGo_cancel env b c hc recips 0
          { sent := 0, failed := 0, blocked_users := [], last_error := none,
            acquires := 0, requests := [] }
        rcases hgo : loopGo env b recips 0
          { sent := 0, failed := 0, blocked_users := [], last_error := none,
            acquires := 0, requests := [] } with ⟨tr, fin, cc⟩
        rw [hgo] at hcan hr
        injection hr with h2
        have htot : r.total = recips.length := by rw [← h2]
        rw [htot] at hB
        have hcan2 := hcan (by omega) (by omega) (by simp)
        rcases hcan2 with ⟨t1, t2, t3⟩
        simp only at t1 t2 t3
        subst t1
        refine ⟨?_, ?_, ?_, by omega, by omega, ?_⟩
        · rw [← h2]
          rfl
        · rw [← h2]
        · rw [← h2]
          simpa using t2
        · rw [← h2]
          simpa using t3

/-- C3 witness: a thirty-recipient run cancelled after five
recipients stops at index 10 with the counts preserved. -/
theorem cancellation_poll_stops_run_witness :
    demoRunCancel.status = "cancelled" ∧ demoRunCancel.cancelled = true
    ∧ demoRunCancel.sent + demoRunCancel.failed = cancelBreakIdx 5
    ∧ 5 ≤ cancelBreakIdx 5 ∧ cancelBreakIdx 5 ≤ 5 + 9 :=
  have h := cancellation_poll_stops_run demoEnvCancel demoBroadcast 5 demoRunCancel
    (fun i => by by_cases h5 : 5 ≤ i <;> simp [demoEnvCancel, cancelCheck, h5])
    (by with_unfolding_all rfl) (by decide)
  ⟨h.1, h.2.1, h.2.2.1, h.2.2.2.1, h.2.2.2.2.1⟩

/-- Membership in an if-then-else of lists comes from one branch. -/
theorem mem_ite_list {α : Type} (x : α) (c : Prop) [inst : Decidable c] (l1 l2 : List α)
    (h : x ∈ (if c then l1 else l2)) : x ∈ l1 ∨ x ∈ l2 := by
  by_cases hc : c
  · rw [if_pos hc] at h
    exact Or.inl h
  · rw [if_neg hc] at h
    exact Or.inr h

/-- Every request `send_telegram_message_sync` issues carries either
the body verbatim with the HTML parse mode or the tag-stripped body
with no parse mode. -/
theorem send_requests_cases (api : TgRequest → TgResponse) (chat_id : ℤ) (text : String)
    (photo_url button_text button_url : Option String) :
    ∀ req ∈ (send_telegram_message_sync api chat_id text photo_url button_text button_url).2,
      (req.text = text ∧ req.parse_mode = some "HTML")
      ∨ (req.text = stripHtmlTags text ∧ req.parse_mode = none) := by
  intro req hreq
  unfold send_telegram_message_sync at hreq
  simp only at hreq
  rw [apply_ite Prod.snd] at hreq
  simp only at hreq
  rcases mem_ite_list req _ _ _ hreq with h | h
  · rcases List.mem_cons.mp h with h2 | h2
    · subst h2
      exact Or.inl ⟨rfl, rfl⟩
    · rcases List.mem_cons.mp h2 with h3 | h3
      · subst h3
        exact Or.inr ⟨rfl, rfl⟩
      · cases h3
  · rcases List.mem_cons.mp h with h2 | h2
    · subst h2
      exact Or.inl ⟨rfl, rfl⟩
    · cases h2

/-- The loop only ever issues verbatim-HTML or stripped-plain
requests for the broadcast body. -/
theorem loopGo_requests_pred (env : ExecEnv) (b : Broadcast) :
    ∀ (recips : List ℤ) (idx : ℕ) (st : LoopState),
      (∀ p ∈ st.requests,
        (p.2.text = b.message_text ∧ p.2.parse_mode = some "HTML")
        ∨ (p.2.text = stripHtmlTags b.message_text ∧ p.2.parse_mode = none)) →
      ∀ p ∈ (loopGo env b recips idx st).2.1.requests,
        (p.2.text = b.message_text ∧ p.2.parse_mode = some "HTML")
        ∨ (p.2.text = stripHtmlTags b.message_text ∧ p.2.parse_mode = none) := by
  intro recips
  induction recips with
  | nil => intro idx st h; simpa [loopGo] using h
  | cons tid rest ih =>
    intro idx st h
    by_cases hbrk : (idx % 10 == 0 && cancelCheck (env.statusAt idx)) = true
    · have hval : loopGo env b (tid :: rest) idx st = ([], st, true) := by
        simp [loopGo, hbrk]
      rw [hval]
      exact h
    · rcases hgo : loopGo env b rest (idx + 1) (loopStep env b idx tid st) with ⟨tr, fin, cc⟩
      have hval : loopGo env b (tid :: rest) idx st
          = (loopStep env b idx tid st :: tr, fin, cc) := by
        simp [loopGo, hbrk, hgo]
      rw [hval]
      have hst1 : ∀ p ∈ (loopStep env b idx tid st).requests,
          (p.2.text = b.message_text ∧ p.2.parse_mode = some "HTML")
          ∨ (p.2.text = stripHtmlTags b.message_text ∧ p.2.parse_mode = none) := by
        intro p hp
        rw [loopStep_requests] at hp
        rcases List.mem_append.mp hp with hp1 | hp1
        · exact h p hp1
        · rcases List.mem_map.mp hp1 with ⟨q, hq1, hq2⟩
          have hq := send_requests_cases (env.api idx) tid b.message_text
            b.message_photo_url b.button_text b.button_url q hq1
          rw [← hq2]
          simpa using hq
      have hres := ih (idx + 1) (loopStep env b idx tid st) hst1
      rw [hgo] at hres
      simpa using hres

/-- A loop that never observes the cancellation marker finishes
uncancelled. -/
theorem loopGo_nocancel (env : ExecEnv) (b : Broadcast)
    (hnc : ∀ i, cancelCheck (env.statusAt i) = false) :
    ∀ (recips : List ℤ) (idx : ℕ) (st : LoopState),
      (loopGo env b recips idx st).2.2 = false := by
  intro recips
  induction recips with
  | nil => intro idx st; simp [loopGo]
  | cons tid rest ih =>
    intro idx st
    have hbrk : (idx % 10 == 0 && cancelCheck (env.statusAt idx)) = false := by
      simp [hnc idx]
    rcases hgo : loopGo env b rest (idx + 1) (loopStep env b idx tid st) with ⟨tr, fin, cc⟩
    have hval : loopGo env b (tid :: rest) idx st
        = (loopStep env b idx tid st :: tr, fin, cc) := by
      simp [loopGo, hbrk, hgo]
    rw [hval]
    have hcc := ih (idx + 1) (loopStep env b idx tid st)
    rw [hgo] at hcc
    simpa using hcc

/-- C10: the broadcast path sends `message_text` verbatim with the
HTML parse-mode hint (the MarkdownV2 formatter is never involved in
the requests a run issues); exactly when the first response is not ok
with a parse/entities description, one retry follows with all tags
stripped and no parse mode; and per-recipient failures never abort the
run — absent cancellation the loop processes every recipient. -/
theorem broadcast_send_verbatim_with_fallback :
    (∀ (api : TgRequest → TgResponse) (chat_id : ℤ) (text : String)
        (photo_url button_text button_url : Option String),
      ((!(api (htmlRequest chat_id text photo_url button_text button_url)).ok
          && descIndicatesParseError (api (htmlRequest chat_id text photo_url button_text button_url))) = true →
        (send_telegram_message_sync api chat_id text photo_url button_text button_url).2
          = [htmlRequest chat_id text photo_url button_text button_url,
             plainRetryRequest chat_id text photo_url button_text button_url])
      ∧ ((!(api (htmlRequest chat_id text photo_url button_text button_url)).ok
          && descIndicatesParseError (api (htmlRequest chat_id text photo_url button_text button_url))) = false →
        (send_telegram_message_sync api chat_id text photo_url button_text button_url).2
          = [htmlRequest chat_id text photo_url button_text button_url]))
    ∧ (∀ (env : ExecEnv) (b : Broadcast) (r : RunResult),
        executeBroadcast env b = Except.ok r →
        ∀ p ∈ r.requests,
          (p.2.text = b.message_text ∧ p.2.parse_mode = some "HTML")
          ∨ (p.2.text = stripHtmlTags b.message_text ∧ p.2.parse_mode = none))
    ∧ (∀ (env : ExecEnv) (b : Broadcast) (r : RunResult),
        executeBroadcast env b = Except.ok r →
        (∀ i, cancelCheck (env.statusAt i) = false) →
        r.cancelled = false ∧ r.sent + r.failed = r.total) := by
  refine ⟨?_, ?_, ?_⟩
  · intro api chat_id text photo_url button_text button_url
    constructor
    · intro h
      unfold send_telegram_message_sync
      rw [apply_ite Prod.snd]
      split
      · rfl
      · rename_i hc
        exact absurd h hc
    · intro h
      unfold send_telegram_message_sync
      rw [apply_ite Prod.snd]
      split
      · rename_i hc
        have hf : False := by
          have hcc : (!(api (htmlRequest chat_id text photo_url button_text button_url)).ok
              && descIndicatesParseError
                (api (htmlRequest chat_id text photo_url button_text button_url))) = true := hc
          rw [h] at hcc
          exact Bool.false_ne_true hcc
        exact absurd hf id
      · rfl
  · intro env b r hr p hp
    unfold executeBroadcast at hr
    by_cases htok : (env.botToken.getD "" == "") = true
    · rw [if_pos htok] at hr
      injection hr with h2
      subst h2
      cases hp
    · rw [if_neg htok] at hr
      rcases hres : resolveRecipients env.now env.store b with e | recips
      · rw [hres] at hr
        cases hr
      · rw [hres] at hr
        dsimp only at hr
        by_cases hz : (recips.length == 0) = true
        · rw [if_pos hz] at hr
          injection hr with h2
          subst h2
          cases hp
        · rw [if_neg hz] at hr
          have hpred := loopGo_requests_pred env b recips 0
            { sent := 0, failed := 0, blocked_users := [], last_error := none,
              acquires := 0, requests := [] } (by intro q hq; cases hq)
          rcases hgo : loopGo env b recips 0
            { sent := 0, failed := 0, blocked_users := [], last_error := none,
              acquires := 0, requests := [] } with ⟨tr, fin, cc⟩
          rw [hgo] at hpred hr
          injection hr with h2
          subst h2
          exact hpred p hp
  · intro env b r hr hnc
    unfold executeBroadcast at hr
    by_cases htok : (env.botToken.getD "" == "") = true
    · rw [if_pos htok] at hr
      injection hr with h2
      subst h2
      exact ⟨rfl, rfl⟩
    · rw [if_neg htok] at hr
      rcases hres : resolveRecipients env.now env.store b with e | recips
      · rw [hres] at hr
        cases hr
      · rw [hres] at hr
        dsimp only at hr
        by_cases hz : (recips.length == 0) = true
        · rw [if_pos hz] at hr
          injection hr with h2
          subst h2
          exact ⟨rfl, rfl⟩
        · rw [if_neg hz] at hr
          have hcc := loopGo_nocancel env b hnc recips 0
            { sent := 0, failed := 0, blocked_users := [], last_error := none,
              acquires := 0, requests := [] }
          have hspec := (loopGo_spec env b recips 0
            { sent := 0, failed := 0, blocked_users := [], last_error := none,
              acquires := 0, requests := [] }).2.2
          rcases hgo : loopGo env b recips 0
            { sent := 0, failed := 0, blocked_users := [], last_error := none,
              acquires := 0, requests := [] } with ⟨tr, fin, cc⟩
          rw [hgo] at hcc hspec hr
          simp only at hcc
          subst hcc
          injection hr with h2
          subst h2
          refine ⟨rfl, ?_⟩
          have := hspec rfl
          simpa using this

/-- C10 witness: a run against an API that rejects HTML once per
recipient. -/
theorem broadcast_send_verbatim_witness :
    (send_telegram_message_sync (demoEnvParseErr.api 0) 0 demoBroadcast.message_text
        none none none).2
      = [htmlRequest 0 demoBroadcast.message_text none none none,
         plainRetryRequest 0 demoBroadcast.message_text none none none]
    ∧ (((0, htmlRequest 0 demoBroadcast.message_text none none none).2.text
          = demoBroadcast.message_text
        ∧ (0, htmlRequest 0 demoBroadcast.message_text none none none).2.parse_mode
          = some "HTML")
      ∨ ((0, htmlRequest 0 demoBroadcast.message_text none none none).2.text
          = stripHtmlTags demoBroadcast.message_text
        ∧ (0, htmlRequest 0 demoBroadcast.message_text none none none).2.parse_mode = none))
    ∧ demoRunParseErr.cancelled = false
    ∧ demoRunParseErr.sent + demoRunParseErr.failed = demoRunParseErr.total :=
  ⟨(broadcast_send_verbatim_with_fallback.1 (demoEnvParseErr.api 0) 0
      demoBroadcast.message_text none none none).1 (by with_unfolding_all rfl),
   broadcast_send_verbatim_with_fallback.2.1 demoEnvParseErr demoBroadcast demoRunParseErr
     (by with_unfolding_all rfl)
     (0, htmlRequest 0 demoBroadcast.message_text none none none)
     (by with_unfolding_all exact List.Mem.head _),
   (broadcast_send_verbatim_with_fallback.2.2 demoEnvParseErr demoBroadcast demoRunParseErr
     (by with_unfolding_all rfl) (fun i => rfl)).1,
   (broadcast_send_verbatim_with_fallback.2.2 demoEnvParseErr demoBroadcast demoRunParseErr
     (by with_unfolding_all rfl) (fun i => rfl)).2⟩

/-- Appending the same element preserves the suffix relation. -/
theorem append_singleton_suffix {p t : List ℚ} (x : ℚ) (h : p <:+ t) :
    p ++ [x] <:+ t ++ [x] := by
  obtain ⟨a, ha⟩ := h
  exact ⟨a, by rw [← ha, List.append_assoc]⟩

/-- On a sorted list, keeping the entries above a threshold keeps a
suffix (exactly what pruning the send history does). -/
theorem sorted_filter_lt_suffix (c : ℚ) :
    ∀ l : List ℚ, l.Sorted (· ≤ ·) → l.filter (fun t => decide (c < t)) <:+ l := by
  intro l
  induction l with
  | nil => intro _; exact List.nil_suffix
  | cons a xs ih =>
    intro hs
    rw [List.sorted_cons] at hs
    rcases hs with ⟨ha, hxs⟩
    by_cases hc : c < a
    · rw [List.filter_cons_of_pos (by simpa using hc),
        List.filter_eq_self.mpr (fun x hx => by simpa using lt_of_lt_of_le hc (ha x hx))]
    · rw [List.filter_cons_of_neg (by simpa using hc)]
      exact (ih hxs).trans (List.suffix_cons a xs)

/-- On a sorted list, keeping the entries below a threshold keeps a
prefix. -/
theorem sorted_filter_le_take (c : ℚ) :
    ∀ l : List ℚ, l.Sorted (· ≤ ·) →
      ∃ n, l.filter (fun t => decide (t ≤ c)) = l.take n := by
  intro l
  induction l with
  | nil => exact fun _ => ⟨0, rfl⟩
  | cons a xs ih =>
    intro hs
    rw [List.sorted_cons] at hs
    rcases hs with ⟨ha, hxs⟩
    by_cases hc : a ≤ c
    · obtain ⟨n, hn⟩ := ih hxs
      exact ⟨n + 1, by rw [List.filter_cons_of_pos (by simpa using hc), hn]; rfl⟩
    · refine ⟨0, ?_⟩
      rw [List.filter_cons_of_neg (by simpa using hc), List.take_zero,
        List.filter_eq_nil_iff.mpr ?_]
      intro x hx
      have : a ≤ x := ha x hx
      simp only [decide_eq_true_eq]
      intro hxc
      exact hc (le_trans this hxc)

/-- Folding `min` over entries above the seed returns the seed. -/
theorem foldl_min_of_le (a : ℚ) : ∀ xs : List ℚ, (∀ x ∈ xs, a ≤ x) → xs.foldl min a = a := by
  intro xs
  induction xs generalizing a with
  | nil => intro _; rfl
  | cons b bs ih =>
    intro h
    have hab : min a b = a := min_eq_left (h b (List.mem_cons_self b bs))
    show bs.foldl min (min a b) = a
    rw [hab]
    exact ih a (fun x hx => h x (List.mem_cons_of_mem b hx))

/-- The minimum of a sorted nonempty list is its head. -/
theorem pyMin_sorted_head (a : ℚ) (xs : List ℚ) (h : (a :: xs).Sorted (· ≤ ·)) :
    pyMin (a :: xs) = a := by
  rw [List.sorted_cons] at h
  exact foldl_min_of_le a xs h.1

/-- Filtering twice by the same predicate filters once. -/
theorem filter_self_idem (l : List ℚ) (p : ℚ → Bool) : (l.filter p).filter p = l.filter p := by
  simp [List.filter_filter]


/-- Indexing into a list extended by one element: inside positions
read the original list, the final position reads the new element. -/
theorem get_append_singleton (l : List ℚ) (x : ℚ) :
    ∀ (i : ℕ) (h : i < (l ++ [x]).length),
      (l ++ [x]).get ⟨i, h⟩ = if hi : i < l.length then l.get ⟨i, hi⟩ else x := by
  induction l with
  | nil =>
    intro i h
    simp at h
    subst h
    rfl
  | cons a as ih =>
    intro i h
    cases i with
    | zero => rw [dif_pos (by simp)]; rfl
    | succ j =>
      have h2 : j < (as ++ [x]).length := by
        simp at h ⊢
        omega
      have : ((a :: as) ++ [x]).get ⟨j + 1, h⟩ = (as ++ [x]).get ⟨j, h2⟩ := rfl
      rw [this, ih j h2]
      by_cases hj : j < as.length
      · rw [dif_pos hj, dif_pos (by simpa using Nat.succ_lt_succ hj)]
        rfl
      · rw [dif_neg hj, dif_neg (by simp; omega)]

/-- A left factor that disappears under append is empty. -/
theorem append_left_nil_of_eq {x y : List ℚ} (h : x ++ y = y) : x = [] := by
  have := congrArg List.length h
  simp at this
  exact this

/-- Filtering by a stronger predicate factors through filtering by a
weaker one. -/
theorem filter_stronger (l : List ℚ) (p q : ℚ → Bool) (h : ∀ t, q t = true → p t = true) :
    l.filter q = (l.filter p).filter q := by
  rw [List.filter_filter]
  apply List.filter_congr
  intro a _
  cases hq : q a
  · simp [hq]
  · simp [hq, h a hq]

/-- The entry at position `i` is the head of `drop i`. -/
theorem get_eq_of_drop_cons :
    ∀ (l : List ℚ) (i : ℕ) (h : i < l.length) (x : ℚ) (xs : List ℚ),
      l.drop i = x :: xs → l.get ⟨i, h⟩ = x := by
  intro l
  induction l with
  | nil => intro i h; simp at h
  | cons a as ih =>
    intro i h x xs hd
    cases i with
    | zero =>
      simp at hd
      exact hd.1
    | succ j =>
      have hd2 : as.drop j = x :: xs := hd
      have hj : j < as.length := by
        have := congrArg List.length hd2
        simp at this
        omega
      exact ih j hj x xs hd2

/-- One `acquire` step preserves the limiter invariant, extending the
recorded-timestamp list with the new entry, and never moves the clock
backwards.  When the pruned window already holds `rate` entries the
recorded instant is exactly `oldest + period`, which keeps the gap
property tight; otherwise the current instant lies at least `period`
after the entry `rate` positions back. -/
theorem acquire_inv (R : ℕ) (P : ℚ) (hR : 1 ≤ R) (hP : 0 < P)
    (s : LimiterState) (ts : List ℚ) (h : LimiterInv R P s ts) :
    LimiterInv R P (acquire R P s) (ts ++ [(acquire R P s).now])
    ∧ s.now ≤ (acquire R P s).now := by
  obtain ⟨hS, hSort, hB, hW, hC, hG⟩ := h
  have hhist_sorted : s.history.Sorted (· ≤ ·) := hSort.sublist hS.sublist
  have hpr_suffix_h : s.history.filter (fun t => decide (s.now - P < t)) <:+ s.history :=
    sorted_filter_lt_suffix _ _ hhist_sorted
  have hpr_suffix_ts : s.history.filter (fun t => decide (s.now - P < t)) <:+ ts :=
    hpr_suffix_h.trans hS
  have hpr_sorted : (s.history.filter (fun t => decide (s.now - P < t))).Sorted (· ≤ ·) :=
    hhist_sorted.filter _
  have hW2 : ts.filter (fun t => decide (s.now - P < t))
      <:+ s.history.filter (fun t => decide (s.now - P < t)) := by
    obtain ⟨a, ha⟩ := hW
    refine ⟨a.filter (fun t => decide (s.now - P < t)), ?_⟩
    calc a.filter (fun t => decide (s.now - P < t)) ++ ts.filter (fun t => decide (s.now - P < t))
        = a.filter (fun t => decide (s.now - P < t))
          ++ (ts.filter (fun t => decide (s.now - P < t))).filter
              (fun t => decide (s.now - P < t)) := by rw [filter_self_idem]
      _ = (a ++ ts.filter (fun t => decide (s.now - P < t))).filter
              (fun t => decide (s.now - P < t)) := (List.filter_append _ _).symm
      _ = s.history.filter (fun t => decide (s.now - P < t)) := by rw [ha]
  by_cases hrate : R ≤ (s.history.filter (fun t => decide (s.now - P < t))).length
  · -- the window is full: sleep until the oldest pruned entry exits
    have hplen : (s.history.filter (fun t => decide (s.now - P < t))).length = R :=
      le_antisymm hC hrate
    rcases hcons : s.history.filter (fun t => decide (s.now - P < t)) with _ | ⟨o, tl⟩
    · rw [hcons] at hplen
      simp at hplen
      omega
    · have hpr_sorted2 : (o :: tl).Sorted (· ≤ ·) := hcons ▸ hpr_sorted
      have hmin : pyMin (s.history.filter (fun t => decide (s.now - P < t))) = o := by
        rw [hcons]
        exact pyMin_sorted_head o tl hpr_sorted2
      have ho_mem : o ∈ s.history.filter (fun t => decide (s.now - P < t)) := by
        rw [hcons]
        exact List.mem_cons_self o tl
      have ho_gt : s.now - P < o := by
        have := List.of_mem_filter ho_mem
        simpa using this
      have hwait : 0 < pyMin (s.history.filter (fun t => decide (s.now - P < t))) + P - s.now := by
        rw [hmin]
        linarith
      have hacq : acquire R P s
          = { history := s.history.filter (fun t => decide (s.now - P < t)) ++ [o + P],
              now := o + P } := by
        unfold acquire
        rw [if_pos hrate]
        dsimp only
        rw [if_pos hwait]
        have harith : s.now + (pyMin (s.history.filter (fun t => decide (s.now - P < t))) + P
            - s.now) = o + P := by
          rw [hmin]
          ring
        rw [harith]
      rw [hacq]
      dsimp only
      have hnow_le : s.now ≤ o + P := by linarith
      refine ⟨⟨?_, ?_, ?_, ?_, ?_, ?_⟩, hnow_le⟩
      · exact append_singleton_suffix _ hpr_suffix_ts
      · refine List.pairwise_append.mpr ⟨hSort, List.pairwise_singleton _ _, ?_⟩
        intro t ht y hy
        rcases List.mem_singleton.mp hy with rfl
        exact (hB t ht).trans hnow_le
      · intro t ht
        rcases List.mem_append.mp ht with h1 | h1
        · exact (hB t h1).trans hnow_le
        · rcases List.mem_singleton.mp h1 with rfl
          exact le_refl _
      · rw [List.filter_append]
        have hsing : [o + P].filter (fun t => decide (o + P - P < t)) = [o + P] := by
          rw [List.filter_cons_of_pos (by simp only [decide_eq_true_eq]; linarith)]
          rfl
        rw [hsing]
        refine append_singleton_suffix _ ?_
        have himp : ∀ t, decide (o + P - P < t) = true → decide (s.now - P < t) = true := by
          intro t hdec
          simp only [decide_eq_true_eq] at hdec ⊢
          linarith
        rw [filter_stronger ts (fun t => decide (s.now - P < t)) (fun t => decide (o + P - P < t)) himp]
        exact (sorted_filter_lt_suffix _ _ (hSort.filter _)).trans hW2
      · rw [List.filter_append, hcons]
        have hhead : ¬ (decide (o + P - P < o) = true) := by
          simp only [decide_eq_true_eq]
          intro hcontr
          linarith
        rw [@List.filter_cons_of_neg ℚ (fun t => decide (o + P - P < t)) o tl hhead]
        have h1 : (tl.filter (fun t => decide (o + P - P < t))).length ≤ tl.length :=
          List.length_filter_le _ _
        have h2 : tl.length + 1 = R := by
          have := hplen
          rw [hcons] at this
          simpa using this
        simp only [List.length_append, List.length_singleton]
        have h3 : ([o + P].filter (fun t => decide (o + P - P < t))).length ≤ 1 := by
          have := List.length_filter_le (fun t => decide (o + P - P < t)) [o + P]
          simpa using this
        omega
      · intro i hlen
        have hlen2 : i + R < ts.length + 1 := by simpa using hlen
        rw [get_append_singleton, get_append_singleton]
        by_cases hi : i + R < ts.length
        · rw [dif_pos (show i < ts.length by omega),
            dif_pos (show i + R < ts.length from hi)]
          exact hG i hi
        · have hieq : i + R = ts.length := by omega
          rw [dif_pos (show i < ts.length by omega),
            dif_neg (show ¬ i + R < ts.length by omega)]
          have hlen4 : (o :: tl).length = R := by
            rw [← hcons]
            exact hplen
          have hdrop : ts.drop i = o :: tl := by
            have hsd := List.suffix_iff_eq_drop.mp hpr_suffix_ts
            rw [hcons, hlen4] at hsd
            rw [show ts.length - R = i from by omega] at hsd
            exact hsd.symm
          rw [get_eq_of_drop_cons ts i (by omega) o tl hdrop]
  · -- the window is not full: record the current instant without sleeping
    have hacq : acquire R P s
        = { history := s.history.filter (fun t => decide (s.now - P < t)) ++ [s.now],
            now := s.now } := by
      unfold acquire
      rw [if_neg hrate]
    rw [hacq]
    dsimp only
    refine ⟨⟨?_, ?_, ?_, ?_, ?_, ?_⟩, le_refl _⟩
    · exact append_singleton_suffix _ hpr_suffix_ts
    · refine List.pairwise_append.mpr ⟨hSort, List.pairwise_singleton _ _, ?_⟩
      intro t ht y hy
      rcases List.mem_singleton.mp hy with rfl
      exact hB t ht
    · intro t ht
      rcases List.mem_append.mp ht with h1 | h1
      · exact hB t h1
      · rcases List.mem_singleton.mp h1 with rfl
        exact le_refl _
    · rw [List.filter_append]
      have hsing : [s.now].filter (fun t => decide (s.now - P < t)) = [s.now] := by
        rw [List.filter_cons_of_pos (by simp only [decide_eq_true_eq]; linarith)]
        rfl
      rw [hsing]
      exact append_singleton_suffix _ hW2
    · rw [List.filter_append, filter_self_idem]
      have hsing : [s.now].filter (fun t => decide (s.now - P < t)) = [s.now] := by
        rw [List.filter_cons_of_pos (by simp only [decide_eq_true_eq]; linarith)]
        rfl
      rw [hsing]
      simp only [List.length_append, List.length_singleton]
      omega
    · intro i hlen
      have hlen2 : i + R < ts.length + 1 := by simpa using hlen
      rw [get_append_singleton, get_append_singleton]
      by_cases hi : i + R < ts.length
      · rw [dif_pos (show i < ts.length by omega),
          dif_pos (show i + R < ts.length from hi)]
        exact hG i hi
      · have hieq : i + R = ts.length := by omega
        rw [dif_pos (show i < ts.length by omega),
          dif_neg (show ¬ i + R < ts.length by omega)]
        have hwlt : (ts.filter (fun t => decide (s.now - P < t))).length < R := by
          have := hW2.length_le
          omega
        by_cases hpred : s.now - P < ts.get ⟨i, by omega⟩
        · exfalso
          have hdropc : ts.drop i = ts.get ⟨i, by omega⟩ :: ts.drop (i + 1) := by
            rw [List.drop_eq_getElem_cons (show i < ts.length by omega)]
            rfl
          have hall : ∀ x ∈ ts.drop i, s.now - P < x := by
            intro x hx
            have hsd : (ts.drop i).Sorted (· ≤ ·) := hSort.sublist (List.drop_sublist _ _)
            rw [hdropc] at hx hsd
            rw [List.sorted_cons] at hsd
            rcases List.mem_cons.mp hx with rfl | hx2
            · exact hpred
            · exact lt_of_lt_of_le hpred (hsd.1 x hx2)
          have hfill : (ts.drop i).filter (fun t => decide (s.now - P < t)) = ts.drop i :=
            List.filter_eq_self.mpr (fun x hx => by simpa using hall x hx)
          have hsplit : ts.filter (fun t => decide (s.now - P < t))
              = (ts.take i).filter (fun t => decide (s.now - P < t)) ++ ts.drop i := by
            conv_lhs => rw [← List.take_append_drop i ts]
            rw [List.filter_append, hfill]
          have hlens : (ts.filter (fun t => decide (s.now - P < t))).length
              = ((ts.take i).filter (fun t => decide (s.now - P < t))).length
                + (ts.drop i).length := by
            rw [hsplit, List.length_append]
          have hdlen : (ts.drop i).length = ts.length - i := List.length_drop _ _
          omega
        · push_neg at hpred
          linarith

/-- Any number of rapid `acquire` calls from an invariant state keeps
the accumulated timestamp list sorted and gap-separated. -/
theorem runFrom_sorted_gap (R : ℕ) (P : ℚ) (hR : 1 ≤ R) (hP : 0 < P) :
    ∀ (k : ℕ) (s : LimiterState) (ts : List ℚ), LimiterInv R P s ts →
      (ts ++ runFrom R P k s).Sorted (· ≤ ·) ∧ GapProp R P (ts ++ runFrom R P k s) := by
  intro k
  induction k with
  | zero =>
    intro s ts h
    rw [show runFrom R P 0 s = [] from rfl, List.append_nil]
    exact ⟨h.2.1, h.2.2.2.2.2⟩
  | succ k ih =>
    intro s ts h
    have hst := acquire_inv R P hR hP s ts h
    have hsplit : ts ++ runFrom R P (k + 1) s
        = (ts ++ [(acquire R P s).now]) ++ runFrom R P k (acquire R P s) := by
      rw [List.append_assoc]
      rfl
    rw [hsplit]
    exact ih (acquire R P s) (ts ++ [(acquire R P s).now]) hst.1

/-- The empty history at any initial instant satisfies the invariant. -/
theorem limiter_init_inv (R : ℕ) (P : ℚ) (t0 : ℚ) :
    LimiterInv R P { history := [], now := t0 } [] := by
  refine ⟨List.suffix_refl _, List.sorted_nil, ?_, ?_, ?_, ?_⟩
  · intro t ht
    cases ht
  · exact List.nil_suffix
  · simp
  · intro i hlen
    simp at hlen

/-- Indexing a take reads the original list. -/
theorem get_take_eq : ∀ (l : List ℚ) (n i : ℕ) (hi : i < (l.take n).length) (h2 : i < l.length),
    (l.take n).get ⟨i, hi⟩ = l.get ⟨i, h2⟩ := by
  intro l
  induction l with
  | nil =>
    intro n i hi h2
    simp at h2
  | cons a as ih =>
    intro n i hi h2
    cases n with
    | zero => simp at hi
    | succ m =>
      cases i with
      | zero => rfl
      | succ j =>
        have hj : j < (as.take m).length := by simpa using hi
        have hj2 : j < as.length := by simpa using h2
        exact ih m j hj hj2

/-- A sorted list with the gap property has at most `rate` entries in
any half-open window of length `period`. -/
theorem sorted_gap_window_count (R : ℕ) (P : ℚ) (l : List ℚ)
    (hs : l.Sorted (· ≤ ·)) (hg : GapProp R P l) (x : ℚ) :
    (l.filter (fun t => decide (x < t) && decide (t ≤ x + P))).length ≤ R := by
  by_contra hlen
  push_neg at hlen
  have hsplit : l.filter (fun t => decide (x < t) && decide (t ≤ x + P))
      = (l.filter (fun t => decide (x < t))).filter (fun t => decide (t ≤ x + P)) := by
    rw [List.filter_filter]
    apply List.filter_congr
    intro a _
    rw [Bool.and_comm]
  obtain ⟨a, ha⟩ := sorted_filter_lt_suffix x l hs
  have husorted : (l.filter (fun t => decide (x < t))).Sorted (· ≤ ·) := hs.filter _
  obtain ⟨nF, hnF⟩ := sorted_filter_le_take (x + P) _ husorted
  rw [hsplit, hnF] at hlen
  have htake_len : (List.take nF (l.filter (fun t => decide (x < t)))).length
      ≤ (l.filter (fun t => decide (x < t))).length := by
    rw [List.length_take]
    omega
  have hflen : R < (l.filter (fun t => decide (x < t))).length := by omega
  have hnFR : R < nF := by
    have := List.length_take nF (l.filter (fun t => decide (x < t)))
    omega
  have halen : a.length + (l.filter (fun t => decide (x < t))).length = l.length := by
    have := congrArg List.length ha
    simpa using this
  -- the entries at offsets 0 and R of the strict-lower filter are inside the window
  have hmem0 : (l.filter (fun t => decide (x < t))).get ⟨0, by omega⟩
      ∈ l.filter (fun t => decide (x < t) && decide (t ≤ x + P)) := by
    rw [hsplit, hnF]
    have hmem := List.get_mem (List.take nF (l.filter (fun t => decide (x < t)))) 0 (by omega)
    rwa [get_take_eq _ nF 0 (by omega) (by omega)] at hmem
  have hmemR : (l.filter (fun t => decide (x < t))).get ⟨R, by omega⟩
      ∈ l.filter (fun t => decide (x < t) && decide (t ≤ x + P)) := by
    rw [hsplit, hnF]
    have hmem := List.get_mem (List.take nF (l.filter (fun t => decide (x < t)))) R (by omega)
    rwa [get_take_eq _ nF R (by omega) (by omega)] at hmem
  have hub : (l.filter (fun t => decide (x < t))).get ⟨R, by omega⟩ ≤ x + P := by
    have := List.of_mem_filter hmemR
    simp at this
    exact this.2
  have hlb : x < (l.filter (fun t => decide (x < t))).get ⟨0, by omega⟩ := by
    have := List.of_mem_filter hmem0
    simp at this
    exact this.1
  -- identify the two entries with entries of l at offsets a.length and a.length + R
  have hdrop : l.filter (fun t => decide (x < t)) = l.drop a.length := by
    have hsd := List.suffix_iff_eq_drop.mp ⟨a, ha⟩
    rw [show l.length - (l.filter (fun t => decide (x < t))).length = a.length from by omega]
      at hsd
    exact hsd
  have hAl : a.length < l.length := by omega
  have hAlR : a.length + R < l.length := by omega
  have hcons0 : l.filter (fun t => decide (x < t)) = l[a.length] :: l.drop (a.length + 1) := by
    rw [hdrop]
    exact List.drop_eq_getElem_cons hAl
  have hget0 := get_eq_of_drop_cons (l.filter (fun t => decide (x < t))) 0 (by omega)
    (l[a.length]) (l.drop (a.length + 1))
    (by rw [show List.drop 0 (l.filter (fun t => decide (x < t)))
          = l.filter (fun t => decide (x < t)) from rfl]
        exact hcons0)
  have hconsR : (l.filter (fun t => decide (x < t))).drop R
      = l[a.length + R] :: l.drop (a.length + R + 1) := by
    rw [hdrop, List.drop_drop]
    exact List.drop_eq_getElem_cons hAlR
  have hgetR := get_eq_of_drop_cons (l.filter (fun t => decide (x < t))) R (by omega)
    (l[a.length + R]) (l.drop (a.length + R + 1)) hconsR
  have hgap := hg a.length (show a.length + R < l.length by omega)
  rw [List.get_eq_getElem, List.get_eq_getElem] at hgap
  rw [hget0] at hlb
  rw [hgetR] at hub
  linarith [hgap, hlb, hub]

/-- C2: for every number of rapid `acquire` calls on a fresh limiter,
no sliding window of length `period` contains more than `rate`
recorded send instants. -/
theorem rate_limiter_window_bound (R : ℕ) (P : ℚ) (k : ℕ) (t0 x : ℚ)
    (hR : 1 ≤ R) (hP : 0 < P) :
    ((runFrom R P k { history := [], now := t0 }).filter
      (fun t => decide (x < t) && decide (t ≤ x + P))).length ≤ R := by
  have h := runFrom_sorted_gap R P hR hP k { history := [], now := t0 } []
    (limiter_init_inv R P t0)
  rw [List.nil_append] at h
  exact sorted_gap_window_count R P _ h.1 h.2 x

/-- C2 witness: five rapid acquires against rate 2 and period 1. -/
theorem rate_limiter_window_bound_witness :
    (1 : ℕ) ≤ 2 ∧ (0 : ℚ) < 1
    ∧ ((runFrom 2 1 5 { history := [], now := 0 }).filter
        (fun t => decide ((0 : ℚ) < t) && decide (t ≤ 0 + 1))).length ≤ 2 :=
  ⟨by decide, by norm_num, rate_limiter_window_bound 2 1 5 0 0 (by decide) (by norm_num)⟩
